import Mathlib

/-!
Shallow embedding of `draw.go`, a minimal software rasterizer: a `Display`
holding a 2D grid of colors, with bounds-checked pixel access, PPM
serialization, and filled-shape drawing for rectangles, circles and
triangles (edge-interpolation scanline fill).

Modelling conventions, stated once:
* Go `int` is modelled by `Int` (no overflow is relevant at the sizes used).
* Go `Color` is a defined integer type, so it is modelled by `Int`; the nine
  named constants are `red = 0 … white = 8` exactly as the Go `iota` block.
* The Go methods mutate a `*Display`; here every operation takes and returns
  a `Display`.  A shape `draw` in Go can return an error after some pixels
  were already written through the pointer, so shape draws return
  `Display × Option String`: the display as left by the call (including any
  partial writes) and the error, if one occurred.
* Go `float64` in `interpolate` is modelled by `ℚ` with exact accumulation
  (`d_k = x0 + k·a`); the truncating conversion `int(d)` is `truncQ`
  (round toward zero).  On every concrete input appearing in a theorem
  below the float64 computation is exact, so the model agrees with it.
* A Go runtime panic (negative `make` length, index out of range) has no
  value; `initializeChecked` returns `none` exactly on the inputs where the
  Go `initialize` panics, and list indexing uses `getD`, with separate
  theorems showing the indices are in range where the claims need it.
-/

namespace Draw

/-- RGB triple of 8-bit channels (Go `type RGB struct { R, G, B uint8 }`). -/
structure RGB where
  R : Nat
  G : Nat
  B : Nat
deriving DecidableEq, Repr

/-- Go `type Color int`: a defined integer type, so any `Int` is a `Color`;
only the nine enumerated values are in the color table. -/
abbrev Color := Int

def red : Color := 0
def green : Color := 1
def blue : Color := 2
def yellow : Color := 3
def orange : Color := 4
def purple : Color := 5
def brown : Color := 6
def black : Color := 7
def white : Color := 8

/-- The point structure (Go `type Point struct { X, Y int }`). -/
structure Point where
  X : Int
  Y : Int
deriving DecidableEq, Repr

/-- Go `var colorMap = map[Color]RGB{...}`: lookup returns `none` for a
color outside the nine enumerated values (`_, exists := colorMap[c]`). -/
def colorMap (c : Color) : Option RGB :=
  if c = red then some ⟨255, 0, 0⟩
  else if c = green then some ⟨0, 255, 0⟩
  else if c = blue then some ⟨0, 0, 255⟩
  else if c = yellow then some ⟨255, 255, 0⟩
  else if c = orange then some ⟨255, 164, 0⟩
  else if c = purple then some ⟨128, 0, 128⟩
  else if c = brown then some ⟨165, 42, 42⟩
  else if c = black then some ⟨0, 0, 0⟩
  else if c = white then some ⟨255, 255, 255⟩
  else none

/-- The display structure (Go `type Display struct`): dimensions plus a
`maxY × maxX` matrix of colors, row-major (`matrix [][]Color`). -/
structure Display where
  maxX : Int
  maxY : Int
  matrix : List (List Color)
deriving DecidableEq, Repr

/-- Cell of the stored matrix at row `r`, column `c` (Go `d.matrix[r][c]`),
with a default for out-of-range indices (the source only indexes in range). -/
def cell (d : Display) (r c : Nat) : Color :=
  (d.matrix.getD r []).getD c 0

/-- The cell that `drawPixel x y` writes: row `x`, column `y` (the source's
transposed storage convention).  `pix d x y` is the stored color of the
logical pixel `(x, y)` as addressed by `drawPixel`. -/
def pix (d : Display) (x y : Int) : Color :=
  cell d x.toNat y.toNat

/-- Go `initialize` (named `initDisplay` here since `initialize` is a Lean keyword): sets the dimensions and allocates a `maxY × maxX`
matrix, every cell `white` (the row-allocation plus the nested loops that
overwrite the zero value with `white`). -/
def initDisplay (maxX maxY : Int) : Display :=
  ⟨maxX, maxY, List.replicate maxY.toNat (List.replicate maxX.toNat white)⟩

/-- Go `initialize` including its panic behavior: `make([][]Color, maxY)`
panics when `maxY < 0`, and the inner `make([]Color, maxX)` (executed only
when the matrix has at least one row, i.e. `maxY > 0`) panics when
`maxX < 0`.  `none` models the panic. -/
def initDisplayChecked (maxX maxY : Int) : Option Display :=
  if maxY < 0 then none
  else if maxX < 0 ∧ 0 < maxY then none
  else some (initDisplay maxX maxY)

/-- Go `drawPixel`: rotates the coordinates (`rotatedY := x; rotatedX := y`),
bounds-checks the rotated pair, checks the color is in the table, then
stores at `matrix[rotatedY][rotatedX]`, i.e. row `x`, column `y`. -/
def drawPixel (d : Display) (x y : Int) (c : Color) : Except String Display :=
  -- the source binds rotatedY := x and rotatedX := y; they are inlined here
  if y < 0 ∨ x < 0 ∨ y ≥ d.maxX ∨ x ≥ d.maxY then
    .error "pixel out of bounds"
  else if (colorMap c).isNone then
    .error "color unknown"
  else
    .ok ⟨d.maxX, d.maxY,
      d.matrix.set x.toNat ((d.matrix.getD x.toNat []).set y.toNat c)⟩

/-- Go `getPixel`: bounds-checks the pair against `[0,maxX) × [0,maxY)` and
reads `matrix[y][x]` — row `y`, column `x`, untransposed. -/
def getPixel (d : Display) (x y : Int) : Except String Color :=
  if x < 0 ∨ y < 0 ∨ x ≥ d.maxX ∨ y ≥ d.maxY then
    .error "pixel out of bounds"
  else
    .ok (cell d y.toNat x.toNat)

/-- Go `clearScreen`: every cell of the existing matrix becomes `white`. -/
def clearScreen (d : Display) : Display :=
  ⟨d.maxX, d.maxY, d.matrix.map (fun row => row.map (fun _ => white))⟩

/-- Go `getMaxXY`. -/
def getMaxXY (d : Display) : Int × Int :=
  (d.maxX, d.maxY)

/-- One PPM pixel as written by `fmt.Fprintf(file, "%d %d %d ", ...)`. -/
def pixelStr (rgb : RGB) : String :=
  toString rgb.R ++ " " ++ toString rgb.G ++ " " ++ toString rgb.B ++ " "

/-- The inner `for x := 0; x < maxX; x++` loop of `screenShot` over one row:
looks each cell up in the color table, failing on an unknown value. -/
def shotRow (row : List Color) : List Nat → Except String String
  | [] => .ok ""
  | x :: rest =>
    match colorMap (row.getD x 0) with
    | none => .error "invalid color at pixel"
    | some rgb =>
      match shotRow row rest with
      | .error e => .error e
      | .ok s => .ok (pixelStr rgb ++ s)

/-- The outer `for y := 0; y < maxY; y++` loop of `screenShot`: each row's
pixels followed by the `fmt.Fprintln(file)` newline. -/
def shotRows (d : Display) : List Nat → Except String String
  | [] => .ok ""
  | y :: rest =>
    match shotRow (d.matrix.getD y []) (List.range d.maxX.toNat) with
    | .error e => .error e
    | .ok s =>
      match shotRows d rest with
      | .error e => .error e
      | .ok t => .ok (s ++ "\x0a" ++ t)

/-- The file content produced by Go `screenShot` on success: the header
`P3\n<maxX> <maxY>\n255\n` followed by the rows in storage order.  An
unknown color aborts with an error (the file-handle side effects are I/O
and outside the embedding). -/
def screenShotContent (d : Display) : Except String String :=
  match shotRows d (List.range d.maxY.toNat) with
  | .error e => .error e
  | .ok body =>
    .ok ("P3" ++ "\x0a" ++ toString d.maxX ++ " " ++ toString d.maxY
      ++ "\x0a" ++ "255" ++ "\x0a" ++ body)

/-- The path Go `screenShot` writes to: `os.Create(filename + ".ppm")`. -/
def screenShotFile (filename : String) : String :=
  filename ++ ".ppm"

/-- Well-formedness of a display: nonnegative dimensions and a matrix of
exactly `maxY` rows of `maxX` cells — what `initialize` establishes and the
Go code relies on when indexing `matrix[y][x]` after a bounds check. -/
def WF (d : Display) : Prop :=
  0 ≤ d.maxX ∧ 0 ≤ d.maxY ∧ d.matrix.length = d.maxY.toNat ∧
    ∀ row ∈ d.matrix, row.length = d.maxX.toNat

instance (d : Display) : Decidable (WF d) := by
  unfold WF; infer_instance

/-- The grid invariant of the spec: every stored cell is in the color table. -/
def validGrid (d : Display) : Prop :=
  ∀ row ∈ d.matrix, ∀ c ∈ row, (colorMap c).isSome = true

instance (d : Display) : Decidable (validGrid d) := by
  unfold validGrid; infer_instance

end Draw

namespace Draw

/-- The integer range `[lo, hi]` traversed by a Go loop
`for v := lo; v <= hi; v++` (empty when `hi < lo`). -/
def intRange (lo hi : Int) : List Int :=
  (List.range (hi - lo + 1).toNat).map (fun (i : Nat) => lo + (i : Int))

/-- The shared pixel loop of the shape draws: call `drawPixel` on each
coordinate in order, stopping at (and returning) the first error.  The
display is returned as the Go `*Display` is left: on an error it keeps all
writes made before the failing call. -/
def drawAll (c : Color) : Display → List (Int × Int) → Display × Option String
  | d, [] => (d, none)
  | d, (x, y) :: rest =>
    match drawPixel d x y c with
    | .error e => (d, some e)
    | .ok d' => drawAll c d' rest

/-- Go `type Rectangle struct`. -/
structure Rectangle where
  LL : Point
  UR : Point
  C : Color
deriving DecidableEq, Repr

/-- The coordinates visited by `Rectangle.draw`'s nested loops, in order:
`y` from `LL.Y` to `UR.Y`, inner `x` from `LL.X` to `UR.X`. -/
def rectPoints (r : Rectangle) : List (Int × Int) :=
  (intRange r.LL.Y r.UR.Y).flatMap
    (fun y => (intRange r.LL.X r.UR.X).map (fun x => (x, y)))

/-- Go `Rectangle.draw`: shape-level bounds check, then the pixel loops. -/
def rectDraw (r : Rectangle) (d : Display) : Display × Option String :=
  if r.LL.X < 0 ∨ r.LL.Y < 0 ∨ r.UR.X ≥ d.maxX ∨ r.UR.Y ≥ d.maxY then
    (d, some "geometry out of bounds")
  else
    drawAll r.C d (rectPoints r)

/-- Go `type Circle struct`. -/
structure Circle where
  CP : Point
  R : Int
  C : Color
deriving DecidableEq, Repr

/-- The coordinates visited by `Circle.draw`'s loops, in order: `y` then
`x` over `[-R, R]`, keeping offsets with `x*x + y*y <= R*R`, translated by
the center. -/
def circlePoints (c : Circle) : List (Int × Int) :=
  (intRange (-c.R) c.R).flatMap
    (fun y => ((intRange (-c.R) c.R).filter (fun x => x * x + y * y ≤ c.R * c.R)).map
      (fun x => (c.CP.X + x, c.CP.Y + y)))

/-- Go `Circle.draw`: bounding-square check, then the disk pixel loops. -/
def circleDraw (c : Circle) (d : Display) : Display × Option String :=
  if c.CP.X - c.R < 0 ∨ c.CP.X + c.R ≥ d.maxX ∨ c.CP.Y - c.R < 0 ∨ c.CP.Y + c.R ≥ d.maxY then
    (d, some "Circle: geometry out of bounds")
  else
    drawAll c.C d (circlePoints c)

/-- Go `type Triangle struct`. -/
structure Triangle where
  Pt0 : Point
  Pt1 : Point
  Pt2 : Point
  C : Color
deriving DecidableEq, Repr

/-- The six working variables `x0, y0, x1, y1, x2, y2` of `Triangle.draw`. -/
structure TriV where
  x0 : Int
  y0 : Int
  x1 : Int
  y1 : Int
  x2 : Int
  y2 : Int
deriving DecidableEq, Repr

/-- First conditional swap of `Triangle.draw`: `if y1 < y0 { swap 0 1 }`. -/
def sortA (v : TriV) : TriV :=
  if v.y1 < v.y0 then ⟨v.x1, v.y1, v.x0, v.y0, v.x2, v.y2⟩ else v

/-- Second conditional swap: `if y2 < y0 { swap 0 2 }`. -/
def sortB (v : TriV) : TriV :=
  if v.y2 < v.y0 then ⟨v.x2, v.y2, v.x1, v.y1, v.x0, v.y0⟩ else v

/-- Third conditional swap: `if y2 < y1 { swap 1 2 }`. -/
def sortC (v : TriV) : TriV :=
  if v.y2 < v.y1 then ⟨v.x0, v.y0, v.x2, v.y2, v.x1, v.y1⟩ else v

/-- The three pairwise swaps of `Triangle.draw`, sorting the vertices by
ascending `y`. -/
def sortVerts (t : Triangle) : TriV :=
  sortC (sortB (sortA ⟨t.Pt0.X, t.Pt0.Y, t.Pt1.X, t.Pt1.Y, t.Pt2.X, t.Pt2.Y⟩))

/-- Round toward zero, Go's `int(d)` conversion from `float64`
(`Rat.floor` is the executable floor; see `ratFloor_eq_intFloor`). -/
def truncQ (q : ℚ) : Int :=
  if q < 0 then -(Rat.floor (-q)) else Rat.floor q

/-- Go `interpolate(y0, x0, y1, x1)`: slope `a = (x1-x0)/(y1-y0)` and the
accumulated values `int(x0 + k·a)` for each `y` from `y0` to `y1`
(`float64` modelled by `ℚ`; when `y1 = y0` the single value is `x0` and the
slope — `±Inf`/`NaN` in Go, `0` in `ℚ` — is never used). -/
def interpolate (y0 x0 y1 x1 : Int) : List Int :=
  let a : ℚ := ((x1 : ℚ) - (x0 : ℚ)) / ((y1 : ℚ) - (y0 : ℚ))
  (List.range (y1 - y0 + 1).toNat).map
    (fun (k : Nat) => truncQ ((x0 : ℚ) + (k : ℚ) * a))

/-- The scanline coordinates of `Triangle.draw`'s final loops: `y` from
`y0` to `y2`, `x` from `x_left[y-y0]` to `x_right[y-y0]`. -/
def triPoints (y0 y2 : Int) (xl xr : List Int) : List (Int × Int) :=
  (intRange y0 y2).flatMap
    (fun y => (intRange (xl.getD (y - y0).toNat 0) (xr.getD (y - y0).toNat 0)).map
      (fun x => (x, y)))

/-- Go `Triangle.draw`: sort vertices by `y`, bounds-check the sorted
vertices, interpolate the three edges, choose left/right boundary by the
midpoint comparison, then scanline-fill.  List indexing (`x02[m]`,
`x012[m]`, `x_left[y-y0]`, `x_right[y-y0]`) uses `getD`; the indices are
proved in range below (`triIndexSafe`). -/
def triDraw (t : Triangle) (d : Display) : Display × Option String :=
  let v := sortVerts t
  if v.x0 < 0 ∨ v.x1 < 0 ∨ v.x2 < 0 ∨ v.y0 < 0 ∨ v.y1 < 0 ∨ v.y2 < 0 ∨
      v.x0 ≥ d.maxX ∨ v.x1 ≥ d.maxX ∨ v.x2 ≥ d.maxX ∨
      v.y0 ≥ d.maxY ∨ v.y1 ≥ d.maxY ∨ v.y2 ≥ d.maxY then
    (d, some "geometry out of bounds")
  else
    let x01 := interpolate v.y0 v.x0 v.y1 v.x1
    let x12 := interpolate v.y1 v.x1 v.y2 v.x2
    let x02 := interpolate v.y0 v.x0 v.y2 v.x2
    let x012 := x01 ++ x12.drop 1
    let m := x012.length / 2
    if x02.getD m 0 < x012.getD m 0 then
      drawAll t.C d (triPoints v.y0 v.y2 x02 x012)
    else
      drawAll t.C d (triPoints v.y0 v.y2 x012 x02)

end Draw

namespace Draw

/-! ### Basic lemmas about the embedding -/

theorem length_intRange (lo hi : Int) : (intRange lo hi).length = (hi - lo + 1).toNat := by
  rw [intRange, List.length_map, List.length_range]

theorem mem_intRange {lo hi a : Int} : a ∈ intRange lo hi ↔ lo ≤ a ∧ a ≤ hi := by
  rw [intRange, List.mem_map]
  constructor
  · rintro ⟨i, hk, rfl⟩
    rw [List.mem_range] at hk
    omega
  · intro h
    refine ⟨(a - lo).toNat, ?_, ?_⟩
    · rw [List.mem_range]; omega
    · omega

theorem getD_intRange {lo hi : Int} {i : Nat} (h : i < (hi - lo + 1).toNat) :
    (intRange lo hi).getD i 0 = lo + i := by
  unfold intRange
  rw [List.getD_eq_getElem _ _ (by simpa using h), List.getElem_map, List.getElem_range]

theorem ratFloor_eq_intFloor (q : ℚ) : Rat.floor q = ⌊q⌋ := by
  rw [Rat.floor_def' q, Rat.floor_def]

theorem truncQ_intCast (x : Int) : truncQ (x : ℚ) = x := by
  unfold truncQ
  simp only [ratFloor_eq_intFloor]
  split
  · rw [← Int.cast_neg, Int.floor_intCast]; omega
  · exact Int.floor_intCast x

theorem le_truncQ {m : Int} {q : ℚ} (h : (m : ℚ) ≤ q) : m ≤ truncQ q := by
  unfold truncQ
  simp only [ratFloor_eq_intFloor]
  split
  · have h1 : (⌊-q⌋ : ℚ) ≤ -q := Int.floor_le _
    have h2 : ⌊-q⌋ ≤ -m := by
      have : ((⌊-q⌋ : Int) : ℚ) ≤ ((-m : Int) : ℚ) := by push_cast; linarith
      exact_mod_cast this
    omega
  · exact Int.le_floor.mpr h

theorem truncQ_le {M : Int} {q : ℚ} (h : q ≤ (M : ℚ)) : truncQ q ≤ M := by
  unfold truncQ
  simp only [ratFloor_eq_intFloor]
  split
  · have h1 : (-M : Int) ≤ ⌊-q⌋ := Int.le_floor.mpr (by push_cast; linarith)
    omega
  · have h1 : ⌊q⌋ ≤ ⌊(M : ℚ)⌋ := Int.floor_le_floor h
    simpa [Int.floor_intCast] using h1

theorem abs_truncQ_sub_lt (q : ℚ) : |(truncQ q : ℚ) - q| < 1 := by
  unfold truncQ
  simp only [ratFloor_eq_intFloor]
  split
  · have h1 : (⌊-q⌋ : ℚ) ≤ -q := Int.floor_le _
    have h2 : -q < ⌊-q⌋ + 1 := Int.lt_floor_add_one _
    rw [abs_lt]
    push_cast
    constructor <;> linarith
  · have h1 : (⌊q⌋ : ℚ) ≤ q := Int.floor_le _
    have h2 : q < ⌊q⌋ + 1 := Int.lt_floor_add_one _
    rw [abs_lt]
    constructor <;> linarith

theorem length_interpolate (y0 x0 y1 x1 : Int) :
    (interpolate y0 x0 y1 x1).length = (y1 - y0 + 1).toNat := by
  rw [interpolate, List.length_map, List.length_range]

theorem getD_interpolate {y0 x0 y1 x1 : Int} {i : Nat}
    (h : i < (y1 - y0 + 1).toNat) :
    (interpolate y0 x0 y1 x1).getD i 0 =
      truncQ ((x0 : ℚ) + (i : ℚ) * (((x1 : ℚ) - (x0 : ℚ)) / ((y1 : ℚ) - (y0 : ℚ)))) := by
  unfold interpolate
  rw [List.getD_eq_getElem _ _ (by simpa using h), List.getElem_map, List.getElem_range]

/-- The interpolated `x0 + k·a` stays between the endpoints in `ℚ`. -/
theorem interp_val_bounds {x0 x1 : Int} {den : ℚ} {k : ℚ}
    (hden : 0 < den) (hk0 : 0 ≤ k) (hkd : k ≤ den) :
    min (x0 : ℚ) (x1 : ℚ) ≤ (x0 : ℚ) + k * (((x1 : ℚ) - (x0 : ℚ)) / den) ∧
      (x0 : ℚ) + k * (((x1 : ℚ) - (x0 : ℚ)) / den) ≤ max (x0 : ℚ) (x1 : ℚ) := by
  set c : ℚ := (x1 : ℚ) - (x0 : ℚ) with hc
  rcases le_total 0 c with hcs | hcs
  · have h1 : 0 ≤ k * (c / den) := mul_nonneg hk0 (div_nonneg hcs hden.le)
    have h2 : k * (c / den) ≤ c := by
      calc k * (c / den) ≤ den * (c / den) :=
            mul_le_mul_of_nonneg_right hkd (div_nonneg hcs hden.le)
        _ = c := by field_simp
    constructor
    · exact le_trans (min_le_left _ _) (by linarith)
    · exact le_trans (by linarith : (x0 : ℚ) + k * (c / den) ≤ (x1 : ℚ)) (le_max_right _ _)
  · have h1 : k * (c / den) ≤ 0 := mul_nonpos_of_nonneg_of_nonpos hk0 (div_nonpos_of_nonpos_of_nonneg hcs hden.le)
    have h2 : c ≤ k * (c / den) := by
      calc c = den * (c / den) := by field_simp
        _ ≤ k * (c / den) := mul_le_mul_of_nonpos_right hkd (div_nonpos_of_nonpos_of_nonneg hcs hden.le)
    constructor
    · exact le_trans (min_le_right _ _) (by linarith)
    · exact le_trans (by linarith : (x0 : ℚ) + k * (c / den) ≤ (x0 : ℚ)) (le_max_left _ _)

/-- Every element of `interpolate` lies between the two `x` endpoints. -/
theorem interpolate_mem_bounds {y0 x0 y1 x1 z : Int}
    (h : z ∈ interpolate y0 x0 y1 x1) :
    min x0 x1 ≤ z ∧ z ≤ max x0 x1 := by
  rw [interpolate, List.mem_map] at h
  obtain ⟨k, hk, rfl⟩ := h
  rw [List.mem_range] at hk
  by_cases hy : y0 < y1
  · have hden : (0 : ℚ) < (y1 : ℚ) - (y0 : ℚ) := by
      have : ((y0 : Int) : ℚ) < ((y1 : Int) : ℚ) := by exact_mod_cast hy
      linarith
    have hk0 : (0 : ℚ) ≤ (k : ℚ) := by positivity
    have hkd : (k : ℚ) ≤ (y1 : ℚ) - (y0 : ℚ) := by
      have hki : (k : Int) ≤ y1 - y0 := by omega
      have : ((k : Int) : ℚ) ≤ ((y1 - y0 : Int) : ℚ) := by exact_mod_cast hki
      push_cast at this
      linarith
    have hb := @interp_val_bounds x0 x1 _ _ hden hk0 hkd
    constructor
    · apply le_truncQ
      refine le_trans ?_ hb.1
      rcases le_total x0 x1 with hx | hx
      · have h1 : min x0 x1 = x0 := min_eq_left hx
        have h2 : min (x0 : ℚ) (x1 : ℚ) = (x0 : ℚ) := min_eq_left (by exact_mod_cast hx)
        rw [h1, h2]
      · have h1 : min x0 x1 = x1 := min_eq_right hx
        have h2 : min (x0 : ℚ) (x1 : ℚ) = (x1 : ℚ) := min_eq_right (by exact_mod_cast hx)
        rw [h1, h2]
    · apply truncQ_le
      refine le_trans hb.2 ?_
      rcases le_total x0 x1 with hx | hx
      · have h1 : max x0 x1 = x1 := max_eq_right hx
        have h2 : max (x0 : ℚ) (x1 : ℚ) = (x1 : ℚ) := max_eq_right (by exact_mod_cast hx)
        rw [h1, h2]
      · have h1 : max x0 x1 = x0 := max_eq_left hx
        have h2 : max (x0 : ℚ) (x1 : ℚ) = (x0 : ℚ) := max_eq_left (by exact_mod_cast hx)
        rw [h1, h2]
  · have hk0 : k = 0 := by omega
    subst hk0
    have : truncQ ((x0 : ℚ) + ((0 : Nat) : ℚ) * (((x1 : ℚ) - (x0 : ℚ)) / ((y1 : ℚ) - (y0 : ℚ)))) = x0 := by
      norm_num [truncQ_intCast]
    rw [this]
    omega

end Draw

namespace Draw

/-! ### drawPixel characterization -/

/-- Successful `drawPixel` fully characterized: the in-bounds conditions on
the rotated coordinates, the color-table check, and the written matrix. -/
theorem drawPixel_ok_spec {d : Display} {x y : Int} {c : Color} {d' : Display}
    (h : drawPixel d x y c = .ok d') :
    0 ≤ x ∧ 0 ≤ y ∧ y < d.maxX ∧ x < d.maxY ∧ (colorMap c).isSome = true ∧
      d' = ⟨d.maxX, d.maxY,
        d.matrix.set x.toNat ((d.matrix.getD x.toNat []).set y.toNat c)⟩ := by
  unfold drawPixel at h
  split_ifs at h with h1 h2
  · refine ⟨by omega, by omega, by omega, by omega, ?_, ?_⟩
    · rcases hsome : colorMap c with _ | rgb
      · rw [hsome] at h2; exact absurd rfl h2
      · rfl
    · exact (Except.ok.inj h).symm

theorem drawPixel_ok_of {d : Display} {x y : Int} {c : Color}
    (h1 : 0 ≤ x) (h2 : 0 ≤ y) (h3 : y < d.maxX) (h4 : x < d.maxY)
    (h5 : (colorMap c).isSome = true) :
    drawPixel d x y c = .ok ⟨d.maxX, d.maxY,
      d.matrix.set x.toNat ((d.matrix.getD x.toNat []).set y.toNat c)⟩ := by
  unfold drawPixel
  rw [if_neg (by omega), if_neg (by simp only [Option.isNone_iff_eq_none]; intro hn; rw [hn] at h5; exact Bool.noConfusion h5)]

/-- `drawPixel` fails with the out-of-bounds message exactly when the rotated
coordinates are out of bounds: `x` outside `[0, maxY)` or `y` outside
`[0, maxX)`. -/
theorem drawPixel_oob_iff {d : Display} {x y : Int} {c : Color} :
    drawPixel d x y c = .error "pixel out of bounds" ↔
      (y < 0 ∨ x < 0 ∨ y ≥ d.maxX ∨ x ≥ d.maxY) := by
  unfold drawPixel
  split_ifs with h1 h2
  · exact iff_of_true rfl h1
  · refine iff_of_false ?_ h1
    intro hE
    exact absurd (Except.error.inj hE) (by decide)
  · exact iff_of_false (by intro hE; cases hE) h1

/-- In bounds, `drawPixel` fails with the unknown-color message exactly when
the color is outside the table. -/
theorem drawPixel_unknown_iff {d : Display} {x y : Int} {c : Color}
    (hb : ¬(y < 0 ∨ x < 0 ∨ y ≥ d.maxX ∨ x ≥ d.maxY)) :
    drawPixel d x y c = .error "color unknown" ↔ colorMap c = none := by
  unfold drawPixel
  rw [if_neg hb]
  split_ifs with h2
  · exact iff_of_true rfl (Option.isNone_iff_eq_none.mp h2)
  · refine iff_of_false (by intro hE; cases hE) ?_
    intro hn
    rw [hn] at h2
    exact h2 rfl

/-- An unknown color makes every `drawPixel` call fail without writing. -/
theorem drawPixel_colorNone {d : Display} {x y : Int} {c : Color}
    (h : colorMap c = none) : ∃ e, drawPixel d x y c = .error e := by
  unfold drawPixel
  split_ifs with h1 h2
  · exact ⟨_, rfl⟩
  · exact ⟨_, rfl⟩
  · rw [Option.isNone_iff_eq_none] at h2; exact absurd h h2

/-! ### Writes seen through `cell` -/

theorem getD_write_self {m : List (List Color)} {x y : Nat} {c : Color}
    (hx : x < m.length) (hy : y < (m.getD x []).length) :
    ((m.set x ((m.getD x []).set y c)).getD x []).getD y 0 = c := by
  simp only [List.getD_eq_getElem?_getD] at hy ⊢
  rw [List.getElem?_set_self hx]
  simp only [Option.getD_some]
  rw [List.getElem?_set_self hy]
  rfl

theorem getD_write_ne {m : List (List Color)} {x y : Nat} {c : Color} {a b : Nat}
    (h : a ≠ x ∨ b ≠ y) :
    ((m.set x ((m.getD x []).set y c)).getD a []).getD b 0 =
      (m.getD a []).getD b 0 := by
  simp only [List.getD_eq_getElem?_getD]
  by_cases hax : a = x
  · subst hax
    have hb : b ≠ y := by tauto
    by_cases hx : a < m.length
    · rw [List.getElem?_set_self hx]
      simp only [Option.getD_some]
      rw [List.getElem?_set_ne (by omega)]
    · rw [List.set_eq_of_length_le (by omega)]
  · rw [List.getElem?_set_ne (by omega)]

theorem cell_drawPixel_self {d : Display} {x y : Int} {c : Color} {d' : Display}
    (hWF : WF d) (h : drawPixel d x y c = .ok d') :
    cell d' x.toNat y.toNat = c := by
  obtain ⟨hx0, hy0, hyX, hxY, hsome, rfl⟩ := drawPixel_ok_spec h
  obtain ⟨hX0, hY0, hlen, hrow⟩ := hWF
  have hx : x.toNat < d.matrix.length := by omega
  have hy : y.toNat < (d.matrix.getD x.toNat []).length := by
    rw [List.getD_eq_getElem _ _ hx, hrow _ (List.getElem_mem hx)]
    omega
  exact getD_write_self hx hy

theorem cell_drawPixel_ne {d : Display} {x y : Int} {c : Color} {d' : Display}
    (h : drawPixel d x y c = .ok d') {a b : Nat}
    (hne : a ≠ x.toNat ∨ b ≠ y.toNat) :
    cell d' a b = cell d a b := by
  obtain ⟨_, _, _, _, _, rfl⟩ := drawPixel_ok_spec h
  exact getD_write_ne hne

theorem dims_drawPixel {d : Display} {x y : Int} {c : Color} {d' : Display}
    (h : drawPixel d x y c = .ok d') : d'.maxX = d.maxX ∧ d'.maxY = d.maxY := by
  obtain ⟨_, _, _, _, _, rfl⟩ := drawPixel_ok_spec h
  exact ⟨rfl, rfl⟩

theorem WF_drawPixel {d : Display} {x y : Int} {c : Color} {d' : Display}
    (hWF : WF d) (h : drawPixel d x y c = .ok d') : WF d' := by
  obtain ⟨hx0, hy0, hyX, hxY, hsome, rfl⟩ := drawPixel_ok_spec h
  obtain ⟨hX0, hY0, hlen, hrow⟩ := hWF
  refine ⟨hX0, hY0, by simpa using hlen, ?_⟩
  intro row hmem
  rcases List.mem_or_eq_of_mem_set hmem with hold | hnew
  · exact hrow _ hold
  · subst hnew
    have hx : x.toNat < d.matrix.length := by omega
    rw [List.length_set, List.getD_eq_getElem _ _ hx]
    exact hrow _ (List.getElem_mem hx)

theorem validGrid_drawPixel {d : Display} {x y : Int} {c : Color} {d' : Display}
    (hvg : validGrid d) (h : drawPixel d x y c = .ok d') : validGrid d' := by
  obtain ⟨hx0, hy0, hyX, hxY, hsome, rfl⟩ := drawPixel_ok_spec h
  intro row hmem e he
  rcases List.mem_or_eq_of_mem_set hmem with hold | hnew
  · exact hvg _ hold _ he
  · subst hnew
    rcases List.mem_or_eq_of_mem_set he with hold' | rfl
    · by_cases hx : x.toNat < d.matrix.length
      · rw [List.getD_eq_getElem _ _ hx] at hold'
        exact hvg _ (List.getElem_mem hx) _ hold'
      · rw [List.getD_eq_default _ _ (by omega)] at hold'
        exact absurd hold' (List.not_mem_nil _)
    · exact hsome

end Draw

namespace Draw

/-! ### drawAll lemmas -/

theorem dims_drawAll (c : Color) (d : Display) (pts : List (Int × Int)) :
    (drawAll c d pts).1.maxX = d.maxX ∧ (drawAll c d pts).1.maxY = d.maxY := by
  induction pts generalizing d with
  | nil => exact ⟨rfl, rfl⟩
  | cons p rest ih =>
    obtain ⟨x, y⟩ := p
    rw [drawAll]
    rcases hdp : drawPixel d x y c with e | d1
    · exact ⟨rfl, rfl⟩
    · obtain ⟨h1, h2⟩ := dims_drawPixel hdp
      obtain ⟨h3, h4⟩ := ih d1
      exact ⟨by rw [h3, h1], by rw [h4, h2]⟩

theorem WF_drawAll {c : Color} {d : Display} (pts : List (Int × Int))
    (hWF : WF d) : WF (drawAll c d pts).1 := by
  induction pts generalizing d with
  | nil => exact hWF
  | cons p rest ih =>
    obtain ⟨x, y⟩ := p
    rw [drawAll]
    rcases hdp : drawPixel d x y c with e | d1
    · exact hWF
    · exact ih (WF_drawPixel hWF hdp)

theorem validGrid_drawAll {c : Color} {d : Display} (pts : List (Int × Int))
    (hvg : validGrid d) : validGrid (drawAll c d pts).1 := by
  induction pts generalizing d with
  | nil => exact hvg
  | cons p rest ih =>
    obtain ⟨x, y⟩ := p
    rw [drawAll]
    rcases hdp : drawPixel d x y c with e | d1
    · exact hvg
    · exact ih (validGrid_drawPixel hvg hdp)

/-- A single successful write leaves any cell unchanged or equal to the
written color (no well-formedness needed: an out-of-range write is a no-op
on the stored matrix). -/
theorem cell_drawPixel_cases {d : Display} {x y : Int} {c : Color} {d' : Display}
    (h : drawPixel d x y c = .ok d') (a b : Nat) :
    cell d' a b = cell d a b ∨ cell d' a b = c := by
  by_cases hab : a = x.toNat ∧ b = y.toNat
  · obtain ⟨rfl, rfl⟩ := hab
    obtain ⟨_, _, _, _, _, rfl⟩ := drawPixel_ok_spec h
    show ((d.matrix.set _ _).getD _ []).getD _ 0 = _ ∨ _
    by_cases hx : x.toNat < d.matrix.length
    · by_cases hy : y.toNat < (d.matrix.getD x.toNat []).length
      · exact Or.inr (getD_write_self hx hy)
      · left
        unfold cell
        simp only [List.getD_eq_getElem?_getD]
        rw [List.getElem?_set_self hx, Option.getD_some,
          List.getD_eq_getElem?_getD] at *
        rw [List.set_eq_of_length_le (by omega)]
    · left
      unfold cell
      rw [List.set_eq_of_length_le (by omega)]
  · exact Or.inl (cell_drawPixel_ne h (by tauto))

/-- After the pixel loop every cell is either untouched or holds the loop's
color. -/
theorem cell_drawAll_cases (c : Color) (d : Display) (pts : List (Int × Int))
    (a b : Nat) :
    cell (drawAll c d pts).1 a b = cell d a b ∨ cell (drawAll c d pts).1 a b = c := by
  induction pts generalizing d with
  | nil => exact Or.inl rfl
  | cons p rest ih =>
    obtain ⟨x, y⟩ := p
    rcases hdp : drawPixel d x y c with e | d1
    · left
      simp only [drawAll, hdp]
    · rcases ih d1 with h | h
      · rcases cell_drawPixel_cases hdp a b with h2 | h2
        · left
          simp only [drawAll, hdp]
          rw [h, h2]
        · right
          simp only [drawAll, hdp]
          rw [h, h2]
      · right
        simp only [drawAll, hdp]
        exact h

/-- Cells outside the loop's coordinate footprint are unchanged. -/
theorem cell_drawAll_ne {c : Color} {d : Display} {pts : List (Int × Int)}
    {a b : Nat} (h : ∀ p ∈ pts, ¬(p.1.toNat = a ∧ p.2.toNat = b)) :
    cell (drawAll c d pts).1 a b = cell d a b := by
  induction pts generalizing d with
  | nil => rfl
  | cons p rest ih =>
    obtain ⟨x, y⟩ := p
    rw [drawAll]
    rcases hdp : drawPixel d x y c with e | d1
    · rfl
    · have hxy := h (x, y) (List.mem_cons_self _ _)
      rw [ih (fun q hq => h q (List.mem_cons_of_mem _ hq)),
        cell_drawPixel_ne hdp (by tauto)]

/-- When the loop succeeds, every listed coordinate was written with the
color and was in bounds for `drawPixel`. -/
theorem drawAll_ok_mem {c : Color} {d : Display} {pts : List (Int × Int)}
    (hWF : WF d) (hok : (drawAll c d pts).2 = none) :
    ∀ p ∈ pts, cell (drawAll c d pts).1 p.1.toNat p.2.toNat = c ∧
      0 ≤ p.1 ∧ 0 ≤ p.2 ∧ p.2 < d.maxX ∧ p.1 < d.maxY := by
  induction pts generalizing d with
  | nil => intro p hp; exact absurd hp (List.not_mem_nil _)
  | cons q rest ih =>
    obtain ⟨x, y⟩ := q
    intro p hp
    rcases hdp : drawPixel d x y c with e | d1
    · simp only [drawAll, hdp] at hok
      exact Option.noConfusion hok
    · simp only [drawAll, hdp] at hok ⊢
      obtain ⟨hx0, hy0, hyX, hxY, hsome, hd1⟩ := drawPixel_ok_spec hdp
      obtain ⟨hdX, hdY⟩ := dims_drawPixel hdp
      have hWF1 : WF d1 := WF_drawPixel hWF hdp
      rcases List.mem_cons.mp hp with hpeq | hmem
      · subst hpeq
        show cell (drawAll c d1 rest).1 x.toNat y.toNat = c ∧
          0 ≤ x ∧ 0 ≤ y ∧ y < d.maxX ∧ x < d.maxY
        refine ⟨?_, hx0, hy0, by omega, by omega⟩
        rcases cell_drawAll_cases c d1 rest x.toNat y.toNat with h | h
        · rw [h]
          exact cell_drawPixel_self hWF hdp
        · exact h
      · have h3 := ih hWF1 hok p hmem
        exact ⟨h3.1, h3.2.1, h3.2.2.1, by omega, by omega⟩

/-- If every listed coordinate is in bounds and the color is known, the
pixel loop succeeds. -/
theorem drawAll_ok_of_forall {c : Color} {d : Display} {pts : List (Int × Int)}
    (hc : (colorMap c).isSome = true)
    (h : ∀ p ∈ pts, 0 ≤ p.1 ∧ 0 ≤ p.2 ∧ p.2 < d.maxX ∧ p.1 < d.maxY) :
    (drawAll c d pts).2 = none := by
  induction pts generalizing d with
  | nil => rfl
  | cons q rest ih =>
    obtain ⟨x, y⟩ := q
    obtain ⟨hx0, hy0, hyX, hxY⟩ := h (x, y) (List.mem_cons_self _ _)
    rw [drawAll, drawPixel_ok_of hx0 hy0 hyX hxY hc]
    exact ih (fun p hp => by
      have := h p (List.mem_cons_of_mem _ hp)
      exact ⟨this.1, this.2.1, this.2.2.1, this.2.2.2⟩)

/-- With a color outside the table the loop writes nothing: the first call
fails (or the list is empty). -/
theorem drawAll_colorNone {c : Color} {d : Display} (pts : List (Int × Int))
    (h : colorMap c = none) : (drawAll c d pts).1 = d := by
  cases pts with
  | nil => rfl
  | cons q rest =>
    obtain ⟨x, y⟩ := q
    obtain ⟨e, he⟩ := drawPixel_colorNone (d := d) (x := x) (y := y) h
    rw [drawAll, he]

end Draw

namespace Draw

/-! ### Claim theorems -/

/-- C8: for every call `interpolate(ya, xa, yb, xb)` with `ya = yb` the
result is exactly the one-element sequence `[xa]`.  No division-by-zero
fault can occur: the Go division is on `float64` (no trap; here total `ℚ`
division), and the slope never contributes to the single produced value. -/
theorem interpolate_degenerate_eq (y x0 x1 : Int) :
    interpolate y x0 y x1 = [x0] := by
  have hl : (interpolate y x0 y x1).length = 1 := by
    rw [length_interpolate]; omega
  have h0 : (interpolate y x0 y x1).getD 0 0 = x0 := by
    rw [getD_interpolate (by omega)]
    norm_num [truncQ_intCast]
  rcases hx : interpolate y x0 y x1 with _ | ⟨a, rest⟩
  · rw [hx] at hl
    exact absurd hl (by decide)
  · rw [hx] at hl h0
    simp only [List.length_cons, List.getD_cons_zero] at hl h0
    rcases rest with _ | ⟨b, rest2⟩
    · rw [h0]
    · simp at hl

/-- C10: `initialize` panics (modelled as `none`) exactly on `h < 0`, or
`w < 0` with `h > 0`; `w = h = 0` is accepted and yields a zero-area grid
on which every `drawPixel` and `getPixel` call fails with OutOfBounds. -/
theorem initialize_partiality :
    (∀ w h : Int, h < 0 ∨ (w < 0 ∧ 0 < h) → initDisplayChecked w h = none) ∧
    initDisplayChecked 0 0 = some (initDisplay 0 0) ∧
    (∀ x y : Int, ∀ c : Color,
      drawPixel (initDisplay 0 0) x y c = .error "pixel out of bounds") ∧
    (∀ x y : Int, getPixel (initDisplay 0 0) x y = .error "pixel out of bounds") := by
  refine ⟨?_, by rfl, ?_, ?_⟩
  · intro w h hc
    unfold initDisplayChecked
    rcases hc with hc | hc
    · rw [if_pos hc]
    · rw [if_neg (by omega), if_pos (by omega)]
  · intro x y c
    unfold drawPixel
    rw [if_pos ?_]
    show y < 0 ∨ x < 0 ∨ y ≥ (initDisplay 0 0).maxX ∨ x ≥ (initDisplay 0 0).maxY
    show y < 0 ∨ x < 0 ∨ y ≥ 0 ∨ x ≥ 0
    omega
  · intro x y
    unfold getPixel
    rw [if_pos ?_]
    show x < 0 ∨ y < 0 ∨ x ≥ (initDisplay 0 0).maxX ∨ y ≥ (initDisplay 0 0).maxY
    show x < 0 ∨ y < 0 ∨ x ≥ 0 ∨ y ≥ 0
    omega

/-- Witness for C10 at concrete inputs. -/
theorem initialize_partiality_witness :
    initDisplayChecked 3 (-1) = none ∧ initDisplayChecked (-2) 5 = none ∧
    drawPixel (initDisplay 0 0) 7 (-3) red = .error "pixel out of bounds" := by
  refine ⟨?_, ?_, ?_⟩
  · exact initialize_partiality.1 3 (-1) (Or.inl (by norm_num))
  · exact initialize_partiality.1 (-2) 5 (Or.inr (by norm_num))
  · exact initialize_partiality.2.2.1 7 (-3) red

/-- C3: `drawPixel(x, y, c)` stores `c` at row `x`, column `y`, failing with
OutOfBounds exactly when `x ∉ [0, maxY)` or `y ∉ [0, maxX)` and (in bounds)
with UnknownColor exactly when `c` is not in the color table, while
`getPixel(x, y)` reads row `y`, column `x`, failing with OutOfBounds exactly
when `(x, y) ∉ [0, maxX) × [0, maxY)`; hence after a successful
`drawPixel(x, y, c)`, `getPixel(y, x)` returns `c`. -/
theorem drawPixel_getPixel_transposition (d : Display) (hWF : WF d)
    (x y : Int) (c : Color) :
    (drawPixel d x y c = .error "pixel out of bounds" ↔
      ¬(0 ≤ x ∧ x < d.maxY ∧ 0 ≤ y ∧ y < d.maxX)) ∧
    ((0 ≤ x ∧ x < d.maxY ∧ 0 ≤ y ∧ y < d.maxX) →
      (drawPixel d x y c = .error "color unknown" ↔ colorMap c = none)) ∧
    (∀ d', drawPixel d x y c = .ok d' → cell d' x.toNat y.toNat = c) ∧
    (getPixel d x y = .error "pixel out of bounds" ↔
      ¬(0 ≤ x ∧ x < d.maxX ∧ 0 ≤ y ∧ y < d.maxY)) ∧
    ((0 ≤ x ∧ x < d.maxX ∧ 0 ≤ y ∧ y < d.maxY) →
      getPixel d x y = .ok (cell d y.toNat x.toNat)) ∧
    (∀ d', drawPixel d x y c = .ok d' → getPixel d' y x = .ok c) := by
  refine ⟨?_, ?_, ?_, ?_, ?_, ?_⟩
  · rw [drawPixel_oob_iff]
    constructor <;> intro h <;> omega
  · intro hb
    exact drawPixel_unknown_iff (by omega)
  · intro d' h
    exact cell_drawPixel_self hWF h
  · unfold getPixel
    split_ifs with h1
    · exact iff_of_true rfl (by omega)
    · exact iff_of_false (by intro hE; cases hE) (by omega)
  · intro hb
    unfold getPixel
    rw [if_neg (by omega)]
  · intro d' h
    obtain ⟨hx0, hy0, hyX, hxY, hsome, hd⟩ := drawPixel_ok_spec h
    obtain ⟨hdX, hdY⟩ := dims_drawPixel h
    unfold getPixel
    rw [if_neg (by omega)]
    rw [cell_drawPixel_self hWF h]

/-- Witness for C3: on a fresh 2×3 display, `drawPixel 1 0 red` stores at
row 1, column 0, and `getPixel 0 1` reads it back. -/
theorem drawPixel_getPixel_transposition_witness :
    getPixel (⟨2, 3, [[white, white], [red, white], [white, white]]⟩ : Display) 0 1 = .ok red :=
  (drawPixel_getPixel_transposition (initDisplay 2 3) (by decide) 1 0 red).2.2.2.2.2
    ⟨2, 3, [[white, white], [red, white], [white, white]]⟩ (by rfl)

end Draw

namespace Draw

/-! ### Grid invariant helpers (C4) -/

theorem colorMap_cell_isSome {d : Display} (hvg : validGrid d) (r c : Nat) :
    (colorMap (cell d r c)).isSome = true := by
  simp only [cell, List.getD_eq_getElem?_getD]
  by_cases hr : r < d.matrix.length
  · rw [List.getElem?_eq_getElem hr, Option.getD_some]
    by_cases hc : c < d.matrix[r].length
    · rw [List.getElem?_eq_getElem hc, Option.getD_some]
      exact hvg _ (List.getElem_mem hr) _ (List.getElem_mem hc)
    · rw [List.getElem?_eq_none (by omega), Option.getD_none]
      rfl
  · rw [List.getElem?_eq_none (l := d.matrix) (by omega), Option.getD_none]
    simp only [List.getElem?_nil, Option.getD_none]
    rfl

theorem shotRow_isOk (row : List Color)
    (hrow : ∀ x : Nat, (colorMap (row.getD x 0)).isSome = true) :
    ∀ xs : List Nat, ∃ s, shotRow row xs = .ok s := by
  intro xs
  induction xs with
  | nil => exact ⟨"", rfl⟩
  | cons x rest ih =>
    rcases hsome : colorMap (row.getD x 0) with _ | rgb
    · have := hrow x
      rw [hsome] at this
      exact absurd this (by decide)
    · obtain ⟨s, hs⟩ := ih
      refine ⟨pixelStr rgb ++ s, ?_⟩
      rw [shotRow, hsome, hs]

theorem shotRows_isOk {d : Display} (hvg : validGrid d) :
    ∀ ys : List Nat, ∃ s, shotRows d ys = .ok s := by
  intro ys
  induction ys with
  | nil => exact ⟨"", rfl⟩
  | cons y rest ih =>
    obtain ⟨s, hs⟩ := shotRow_isOk (d.matrix.getD y [])
      (fun x => colorMap_cell_isSome hvg y x) (List.range d.maxX.toNat)
    obtain ⟨t, ht⟩ := ih
    refine ⟨s ++ "\x0a" ++ t, ?_⟩
    rw [shotRows, hs, ht]

/-- C4: after `initialize(w, h)` every in-range `getPixel` is `white` and
`getMaxXY` is `(w, h)`; every operation preserves the invariant that each
cell is in the Color Table, making `screenShot`'s InvalidColor branch
unreachable (serialization always succeeds on a valid grid). -/
theorem grid_color_invariant :
    (∀ w h x y : Int, 0 < w → 0 < h → 0 ≤ x → x < w → 0 ≤ y → y < h →
      getPixel (initDisplay w h) x y = .ok white) ∧
    (∀ w h : Int, getMaxXY (initDisplay w h) = (w, h)) ∧
    (∀ w h : Int, validGrid (initDisplay w h)) ∧
    (∀ (d : Display) (x y : Int) (c : Color) (d' : Display),
      validGrid d → drawPixel d x y c = .ok d' → validGrid d') ∧
    (∀ d : Display, validGrid (clearScreen d)) ∧
    (∀ (r : Rectangle) (d : Display), validGrid d → validGrid (rectDraw r d).1) ∧
    (∀ (cc : Circle) (d : Display), validGrid d → validGrid (circleDraw cc d).1) ∧
    (∀ (t : Triangle) (d : Display), validGrid d → validGrid (triDraw t d).1) ∧
    (∀ d : Display, validGrid d → (screenShotContent d).isOk = true) := by
  refine ⟨?_, fun w h => rfl, ?_, ?_, ?_, ?_, ?_, ?_, ?_⟩
  · intro w h x y hw hh hx0 hxw hy0 hyh
    unfold getPixel
    rw [if_neg (by dsimp only [initDisplay]; omega)]
    have hcell : cell (initDisplay w h) y.toNat x.toNat = white := by
      simp only [cell, initDisplay, List.getD_eq_getElem?_getD]
      rw [List.getElem?_eq_getElem
          (l := List.replicate h.toNat (List.replicate w.toNat white))
          (by rw [List.length_replicate]; omega),
        List.getElem_replicate, Option.getD_some,
        List.getElem?_eq_getElem (l := List.replicate w.toNat white)
          (by rw [List.length_replicate]; omega),
        List.getElem_replicate, Option.getD_some]
    rw [hcell]
  · intro w h
    intro row hrow e he
    unfold initDisplay at hrow
    dsimp only at hrow
    rw [List.eq_of_mem_replicate hrow] at he
    rw [List.eq_of_mem_replicate he]
    rfl
  · intro d x y c d' hvg h
    exact validGrid_drawPixel hvg h
  · intro d
    intro row hrow e he
    unfold clearScreen at hrow
    dsimp only at hrow
    obtain ⟨row0, _, rfl⟩ := List.mem_map.mp hrow
    obtain ⟨e0, _, rfl⟩ := List.mem_map.mp he
    rfl
  · intro r d hvg
    unfold rectDraw
    split_ifs
    · exact hvg
    · exact validGrid_drawAll _ hvg
  · intro cc d hvg
    unfold circleDraw
    split_ifs
    · exact hvg
    · exact validGrid_drawAll _ hvg
  · intro t d hvg
    simp only [triDraw]
    split_ifs
    · exact hvg
    · exact validGrid_drawAll _ hvg
    · exact validGrid_drawAll _ hvg
  · intro d hvg
    obtain ⟨s, hs⟩ := shotRows_isOk hvg (List.range d.maxY.toNat)
    unfold screenShotContent
    rw [hs]
    rfl

/-- Witness for C4 at concrete inputs. -/
theorem grid_color_invariant_witness :
    getPixel (initDisplay 2 2) 1 1 = .ok white ∧
    (screenShotContent (initDisplay 3 2)).isOk = true ∧
    validGrid (rectDraw ⟨⟨0, 0⟩, ⟨1, 1⟩, red⟩ (initDisplay 2 2)).1 := by
  refine ⟨?_, ?_, ?_⟩
  · exact grid_color_invariant.1 2 2 1 1 (by norm_num) (by norm_num) (by norm_num)
      (by norm_num) (by norm_num) (by norm_num)
  · exact grid_color_invariant.2.2.2.2.2.2.2.2 (initDisplay 3 2) (by decide)
  · exact grid_color_invariant.2.2.2.2.2.1 ⟨⟨0, 0⟩, ⟨1, 1⟩, red⟩ (initDisplay 2 2) (by decide)

end Draw

namespace Draw

/-! ### Rectangle fill (C5) -/

theorem mem_rectPoints {r : Rectangle} {p : Int × Int} :
    p ∈ rectPoints r ↔
      r.LL.X ≤ p.1 ∧ p.1 ≤ r.UR.X ∧ r.LL.Y ≤ p.2 ∧ p.2 ≤ r.UR.Y := by
  obtain ⟨a, b⟩ := p
  simp only [rectPoints, List.mem_flatMap, List.mem_map, mem_intRange]
  constructor
  · rintro ⟨y, hy, x, hx, heq⟩
    obtain ⟨rfl, rfl⟩ := Prod.mk.injEq .. ▸ And.intro (congrArg Prod.fst heq) (congrArg Prod.snd heq)
    exact ⟨hx.1, hx.2, hy.1, hy.2⟩
  · rintro ⟨h1, h2, h3, h4⟩
    exact ⟨b, ⟨h3, h4⟩, a, ⟨h1, h2⟩, rfl⟩

/-- C5: a successful bounds-checked `Rectangle.draw` colors exactly the
cells with `LL.X ≤ x ≤ UR.X`, `LL.Y ≤ y ≤ UR.Y` and leaves every other
cell unchanged; a degenerate rectangle (UR below or left of LL) that
passes the bounds check paints nothing and succeeds; on a fresh 10×10 grid
the `LL=(1,1)`, `UR=(3,3)` rectangle colors exactly the 9 cells. -/
theorem rectangle_fill_exact :
    (∀ (r : Rectangle) (d d' : Display), WF d → rectDraw r d = (d', none) →
      (∀ x y : Int, r.LL.X ≤ x → x ≤ r.UR.X → r.LL.Y ≤ y → y ≤ r.UR.Y →
        cell d' x.toNat y.toNat = r.C) ∧
      (∀ a b : Nat,
        ¬(r.LL.X ≤ (a : Int) ∧ (a : Int) ≤ r.UR.X ∧
            r.LL.Y ≤ (b : Int) ∧ (b : Int) ≤ r.UR.Y) →
        cell d' a b = cell d a b)) ∧
    (∀ (r : Rectangle) (d : Display),
      ¬(r.LL.X < 0 ∨ r.LL.Y < 0 ∨ r.UR.X ≥ d.maxX ∨ r.UR.Y ≥ d.maxY) →
      (r.UR.X < r.LL.X ∨ r.UR.Y < r.LL.Y) → rectDraw r d = (d, none)) ∧
    (∀ a : Nat, a < 10 → ∀ b : Nat, b < 10 →
      cell (rectDraw ⟨⟨1, 1⟩, ⟨3, 3⟩, blue⟩ (initDisplay 10 10)).1 a b =
        if 1 ≤ a ∧ a ≤ 3 ∧ 1 ≤ b ∧ b ≤ 3 then blue else white) := by
  refine ⟨?_, ?_, by decide⟩
  · intro r d d' hWF h
    unfold rectDraw at h
    split_ifs at h with hb
    · exact absurd (congrArg Prod.snd h) (by simp)
    · have hfst : (drawAll r.C d (rectPoints r)).1 = d' := congrArg Prod.fst h
      have hsnd : (drawAll r.C d (rectPoints r)).2 = none := by
        rw [h]
      constructor
      · intro x y h1 h2 h3 h4
        have hmem : (x, y) ∈ rectPoints r := mem_rectPoints.mpr ⟨h1, h2, h3, h4⟩
        have := (drawAll_ok_mem hWF hsnd (x, y) hmem).1
        rw [hfst] at this
        exact this
      · intro a b hout
        rw [← hfst]
        apply cell_drawAll_ne
        intro p hp hmatch
        rw [mem_rectPoints] at hp
        have hp1 : 0 ≤ p.1 := by omega
        have hp2 : 0 ≤ p.2 := by omega
        apply hout
        omega
  · intro r d hb hdeg
    unfold rectDraw
    rw [if_neg hb]
    have hempty : rectPoints r = [] := by
      apply List.eq_nil_iff_forall_not_mem.mpr
      intro p hp
      rw [mem_rectPoints] at hp
      omega
    rw [hempty]
    rfl

/-- Witness for C5 at concrete inputs. -/
theorem rectangle_fill_exact_witness :
    cell (rectDraw ⟨⟨1, 1⟩, ⟨3, 3⟩, blue⟩ (initDisplay 10 10)).1 2 2 = blue ∧
    cell (rectDraw ⟨⟨1, 1⟩, ⟨3, 3⟩, blue⟩ (initDisplay 10 10)).1 0 0 = white ∧
    rectDraw ⟨⟨3, 3⟩, ⟨1, 1⟩, red⟩ (initDisplay 10 10) = (initDisplay 10 10, none) := by
  refine ⟨?_, ?_, ?_⟩
  · have := rectangle_fill_exact.2.2 2 (by norm_num) 2 (by norm_num)
    simpa using this
  · have := rectangle_fill_exact.2.2 0 (by norm_num) 0 (by norm_num)
    simpa using this
  · exact rectangle_fill_exact.2.1 ⟨⟨3, 3⟩, ⟨1, 1⟩, red⟩ (initDisplay 10 10)
      (by decide) (by norm_num)

/-! ### Circle fill (C6) -/

theorem mem_circlePoints {c : Circle} {p : Int × Int} :
    p ∈ circlePoints c ↔
      ∃ dx dy : Int, -c.R ≤ dx ∧ dx ≤ c.R ∧ -c.R ≤ dy ∧ dy ≤ c.R ∧
        dx * dx + dy * dy ≤ c.R * c.R ∧ p = (c.CP.X + dx, c.CP.Y + dy) := by
  simp only [circlePoints, List.mem_flatMap, List.mem_map, List.mem_filter,
    mem_intRange, decide_eq_true_eq]
  constructor
  · rintro ⟨dy, hdy, dx, ⟨⟨hdx1, hdx2⟩, hdisk⟩, heq⟩
    exact ⟨dx, dy, hdx1, hdx2, hdy.1, hdy.2, hdisk, heq.symm⟩
  · rintro ⟨dx, dy, h1, h2, h3, h4, h5, rfl⟩
    exact ⟨dy, ⟨h3, h4⟩, dx, ⟨⟨h1, h2⟩, h5⟩, rfl⟩

/-- The claim's iff fails for a negative radius: with `R = -1` the draw
succeeds, the offset `(0,0)` satisfies `dx²+dy² ≤ R²`, yet the center cell
keeps its prior color (`white`, not the circle's `green`). -/
theorem circle_disk_membership_counterexample :
    (circleDraw ⟨⟨5, 5⟩, -1, green⟩ (initDisplay 12 12)).2 = none ∧
    ((0 : Int) * 0 + 0 * 0 ≤ (-1 : Int) * (-1)) ∧
    pix (circleDraw ⟨⟨5, 5⟩, -1, green⟩ (initDisplay 12 12)).1 (5 + 0) (5 + 0) = white ∧
    white ≠ green := by
  refine ⟨by decide, by decide, by decide, by decide⟩

/-- C6 (amended with `0 ≤ R`): when `Circle.draw` succeeds and the radius
is nonnegative, every offset with `dx²+dy² ≤ R²` is painted with the
circle's color, offsets outside the disk are untouched, and on the
concrete `CP=(5,5)`, `R=2`, 12×12 instance offset `(2,0)` is painted while
`(2,2)` stays white. -/
theorem circle_disk_membership :
    (∀ (c : Circle) (d d' : Display), WF d → 0 ≤ c.R →
      circleDraw c d = (d', none) →
      (∀ dx dy : Int, dx * dx + dy * dy ≤ c.R * c.R →
        cell d' (c.CP.X + dx).toNat (c.CP.Y + dy).toNat = c.C) ∧
      (∀ a b : Nat,
        (∀ dx dy : Int, dx * dx + dy * dy ≤ c.R * c.R →
          ¬((c.CP.X + dx).toNat = a ∧ (c.CP.Y + dy).toNat = b)) →
        cell d' a b = cell d a b)) ∧
    ((circleDraw ⟨⟨5, 5⟩, 2, green⟩ (initDisplay 12 12)).2 = none ∧
      pix (circleDraw ⟨⟨5, 5⟩, 2, green⟩ (initDisplay 12 12)).1 (5 + 2) (5 + 0) = green ∧
      pix (circleDraw ⟨⟨5, 5⟩, 2, green⟩ (initDisplay 12 12)).1 (5 + 2) (5 + 2) = white) := by
  constructor
  · intro c d d' hWF hR h
    unfold circleDraw at h
    split_ifs at h with hb
    · exact absurd (congrArg Prod.snd h) (by simp)
    · have hfst : (drawAll c.C d (circlePoints c)).1 = d' := congrArg Prod.fst h
      have hsnd : (drawAll c.C d (circlePoints c)).2 = none := by rw [h]
      constructor
      · intro dx dy hdisk
        have hdx2 : dx * dx ≤ c.R * c.R := by nlinarith [mul_self_nonneg dy]
        have hdy2 : dy * dy ≤ c.R * c.R := by nlinarith [mul_self_nonneg dx]
        have hdx : -c.R ≤ dx ∧ dx ≤ c.R := by
          constructor
          · by_contra h'
            push_neg at h'
            have h1 : c.R < -dx := by omega
            have : c.R * c.R < (-dx) * (-dx) :=
              mul_lt_mul' h1.le h1 hR (hR.trans_lt h1)
            nlinarith
          · by_contra h'
            push_neg at h'
            have : c.R * c.R < dx * dx :=
              mul_lt_mul' h'.le h' hR (hR.trans_lt h')
            omega
        have hdy : -c.R ≤ dy ∧ dy ≤ c.R := by
          constructor
          · by_contra h'
            push_neg at h'
            have h1 : c.R < -dy := by omega
            have : c.R * c.R < (-dy) * (-dy) :=
              mul_lt_mul' h1.le h1 hR (hR.trans_lt h1)
            nlinarith
          · by_contra h'
            push_neg at h'
            have : c.R * c.R < dy * dy :=
              mul_lt_mul' h'.le h' hR (hR.trans_lt h')
            omega
        have hmem : ((c.CP.X + dx, c.CP.Y + dy) : Int × Int) ∈ circlePoints c :=
          mem_circlePoints.mpr ⟨dx, dy, hdx.1, hdx.2, hdy.1, hdy.2, hdisk, rfl⟩
        have := (drawAll_ok_mem hWF hsnd _ hmem).1
        rw [hfst] at this
        exact this
      · intro a b hout
        rw [← hfst]
        apply cell_drawAll_ne
        intro p hp hmatch
        obtain ⟨dx, dy, _, _, _, _, hdisk, rfl⟩ := mem_circlePoints.mp hp
        exact hout dx dy hdisk ⟨hmatch.1, hmatch.2⟩
  · refine ⟨by decide, by decide, by decide⟩

/-- Witness for C6's amended theorem at a concrete circle. -/
theorem circle_disk_membership_witness :
    cell (circleDraw ⟨⟨5, 5⟩, 2, green⟩ (initDisplay 12 12)).1
      ((5 : Int) + 2).toNat ((5 : Int) + 0).toNat = green :=
  (circle_disk_membership.1 ⟨⟨5, 5⟩, 2, green⟩ (initDisplay 12 12)
    (circleDraw ⟨⟨5, 5⟩, 2, green⟩ (initDisplay 12 12)).1
    (by decide) (by norm_num) (by decide)).1 2 0 (by norm_num)

end Draw

section RatComputable

/- The Batteries rational operations are `@[irreducible]`; the concrete
triangle evaluations below reduce them during elaboration. -/
attribute [local semireducible] Rat.add Rat.mul Rat.sub Rat.inv

namespace Draw

/-! ### Triangle coverage P5 (C2) -/

/-- Number of cells of color `c` in logical row `y` among `x < w` (the
pixels as addressed by `drawPixel`). -/
def rowRun (d : Display) (c : Color) (y : Int) (w : Nat) : Nat :=
  ((List.range w).filter (fun x => pix d (x : Int) y = c)).length

/-- The claim's strict decrease fails on the code: for the triangle
`(0,0),(4,0),(0,4)` on a fresh 10×10 display the draw succeeds, but row 0
holds a single colored pixel while row 1 holds four — the flat bottom edge
collapses to the single vertex pixel, so the run length increases from
row 0 to row 1. -/
theorem triangle_coverage_counterexample :
    (triDraw ⟨⟨0, 0⟩, ⟨4, 0⟩, ⟨0, 4⟩, red⟩ (initDisplay 10 10)).2 = none ∧
    rowRun (triDraw ⟨⟨0, 0⟩, ⟨4, 0⟩, ⟨0, 4⟩, red⟩ (initDisplay 10 10)).1 red 0 10 = 1 ∧
    rowRun (triDraw ⟨⟨0, 0⟩, ⟨4, 0⟩, ⟨0, 4⟩, red⟩ (initDisplay 10 10)).1 red 1 10 = 4 ∧
    ¬(rowRun (triDraw ⟨⟨0, 0⟩, ⟨4, 0⟩, ⟨0, 4⟩, red⟩ (initDisplay 10 10)).1 red 1 10 <
      rowRun (triDraw ⟨⟨0, 0⟩, ⟨4, 0⟩, ⟨0, 4⟩, red⟩ (initDisplay 10 10)).1 red 0 10) := by
  refine ⟨by decide, by decide, by decide, by decide⟩

/-- C2 (amended): the draw succeeds; every row `y ∈ [0,4]` is a contiguous
run starting at `x = 0`; the run lengths are `1, 4, 3, 2, 1` — row 0
degenerates to the single vertex pixel, and the lengths strictly decrease
only from row 1 on. -/
theorem triangle_coverage_amended :
    (triDraw ⟨⟨0, 0⟩, ⟨4, 0⟩, ⟨0, 4⟩, red⟩ (initDisplay 10 10)).2 = none ∧
    (∀ y : Nat, y < 5 → ∀ x : Nat, x < 10 →
      (pix (triDraw ⟨⟨0, 0⟩, ⟨4, 0⟩, ⟨0, 4⟩, red⟩ (initDisplay 10 10)).1 (x : Int) (y : Int) = red ↔
        x < rowRun (triDraw ⟨⟨0, 0⟩, ⟨4, 0⟩, ⟨0, 4⟩, red⟩ (initDisplay 10 10)).1 red (y : Int) 10)) ∧
    (∀ y : Nat, 5 ≤ y → y < 10 →
      rowRun (triDraw ⟨⟨0, 0⟩, ⟨4, 0⟩, ⟨0, 4⟩, red⟩ (initDisplay 10 10)).1 red (y : Int) 10 = 0) ∧
    ([rowRun (triDraw ⟨⟨0, 0⟩, ⟨4, 0⟩, ⟨0, 4⟩, red⟩ (initDisplay 10 10)).1 red 0 10,
      rowRun (triDraw ⟨⟨0, 0⟩, ⟨4, 0⟩, ⟨0, 4⟩, red⟩ (initDisplay 10 10)).1 red 1 10,
      rowRun (triDraw ⟨⟨0, 0⟩, ⟨4, 0⟩, ⟨0, 4⟩, red⟩ (initDisplay 10 10)).1 red 2 10,
      rowRun (triDraw ⟨⟨0, 0⟩, ⟨4, 0⟩, ⟨0, 4⟩, red⟩ (initDisplay 10 10)).1 red 3 10,
      rowRun (triDraw ⟨⟨0, 0⟩, ⟨4, 0⟩, ⟨0, 4⟩, red⟩ (initDisplay 10 10)).1 red 4 10] =
      [1, 4, 3, 2, 1]) ∧
    (∀ y1 : Nat, y1 < 5 → ∀ y2 : Nat, y2 < 5 → 1 ≤ y1 → y1 < y2 →
      rowRun (triDraw ⟨⟨0, 0⟩, ⟨4, 0⟩, ⟨0, 4⟩, red⟩ (initDisplay 10 10)).1 red (y2 : Int) 10 <
        rowRun (triDraw ⟨⟨0, 0⟩, ⟨4, 0⟩, ⟨0, 4⟩, red⟩ (initDisplay 10 10)).1 red (y1 : Int) 10) := by
  refine ⟨by decide, by decide, by decide, by decide, by decide⟩

/-- Witness for C2's amended theorem at concrete rows. -/
theorem triangle_coverage_amended_witness :
    rowRun (triDraw ⟨⟨0, 0⟩, ⟨4, 0⟩, ⟨0, 4⟩, red⟩ (initDisplay 10 10)).1 red (4 : Nat) 10 <
      rowRun (triDraw ⟨⟨0, 0⟩, ⟨4, 0⟩, ⟨0, 4⟩, red⟩ (initDisplay 10 10)).1 red (1 : Nat) 10 :=
  triangle_coverage_amended.2.2.2.2 1 (by norm_num) 4 (by norm_num) (by norm_num) (by norm_num)

end Draw

end RatComputable

namespace Draw

/-! ### Serialization format P7 (C7) -/

/-- Concatenation of a list of strings (left to right). -/
def strConcat : List String → String
  | [] => ""
  | s :: rest => s ++ strConcat rest

/-- The PPM header the claim requires: `P3\n<maxX> <maxY>\n255\n`. -/
def ppmHeader (d : Display) : String :=
  "P3" ++ "\x0a" ++ toString d.maxX ++ " " ++ toString d.maxY ++ "\x0a" ++ "255" ++ "\x0a"

/-- One newline-terminated PPM row: `maxX` space-separated `R G B` triples
looked up from the color table for the stored cells of storage row `y`. -/
def ppmRow (d : Display) (y : Nat) : String :=
  strConcat ((List.range d.maxX.toNat).map
    (fun x => pixelStr ((colorMap (cell d y x)).getD ⟨0, 0, 0⟩))) ++ "\x0a"

/-- The full PPM content: header then the `maxY` rows in storage order. -/
def ppmContent (d : Display) : String :=
  ppmHeader d ++ strConcat ((List.range d.maxY.toNat).map (ppmRow d))

theorem shotRow_eq (row : List Color)
    (hrow : ∀ x : Nat, (colorMap (row.getD x 0)).isSome = true) :
    ∀ xs : List Nat, shotRow row xs =
      .ok (strConcat (xs.map (fun x => pixelStr ((colorMap (row.getD x 0)).getD ⟨0, 0, 0⟩)))) := by
  intro xs
  induction xs with
  | nil => rfl
  | cons x rest ih =>
    rcases hsome : colorMap (row.getD x 0) with _ | rgb
    · have := hrow x
      rw [hsome] at this
      exact absurd this (by decide)
    · rw [shotRow, hsome, ih]
      rw [List.map_cons, strConcat, hsome]
      rfl

theorem shotRows_eq {d : Display} (hvg : validGrid d) :
    ∀ ys : List Nat, shotRows d ys = .ok (strConcat (ys.map (ppmRow d))) := by
  intro ys
  induction ys with
  | nil => rfl
  | cons y rest ih =>
    rw [shotRows,
      shotRow_eq (d.matrix.getD y []) (fun x => colorMap_cell_isSome hvg y x), ih]
    rw [List.map_cons, strConcat]
    rfl

/-- C7: on a display whose cells are all enumerated colors, `screenShot`
targets the file `name ++ ".ppm"` and produces exactly the header
`P3\n<maxX> <maxY>\n255\n` followed by `maxY` newline-terminated rows in
storage order, each row listing `maxX` `R G B` triples from the color
table (the claim's overwrite of an existing file is `os.Create` I/O
behavior outside the embedding). -/
theorem screenShot_format (d : Display) (hvg : validGrid d) :
    (∀ name : String, screenShotFile name = name ++ ".ppm") ∧
    screenShotContent d = .ok (ppmContent d) := by
  refine ⟨fun name => rfl, ?_⟩
  unfold screenShotContent
  rw [shotRows_eq hvg (List.range d.maxY.toNat)]
  rfl

/-- Witness for C7 on a concrete 2×1 display. -/
theorem screenShot_format_witness :
    screenShotContent (initDisplay 2 1) = .ok (ppmContent (initDisplay 2 1)) ∧
    ppmContent (initDisplay 2 1) = "P3" ++ "\x0a" ++ "2 1" ++ "\x0a" ++ "255" ++ "\x0a" ++
      "255 255 255 255 255 255 " ++ "\x0a" := by
  refine ⟨(screenShot_format (initDisplay 2 1) (by decide)).2, by decide⟩

end Draw

namespace Draw

/-! ### All-or-nothing draws (C1) -/

/-- `Rectangle.draw`'s shape-level bounds check passes. -/
def rectInBounds (r : Rectangle) (d : Display) : Prop :=
  ¬(r.LL.X < 0 ∨ r.LL.Y < 0 ∨ r.UR.X ≥ d.maxX ∨ r.UR.Y ≥ d.maxY)

/-- `Circle.draw`'s shape-level bounds check passes. -/
def circleInBounds (c : Circle) (d : Display) : Prop :=
  ¬(c.CP.X - c.R < 0 ∨ c.CP.X + c.R ≥ d.maxX ∨ c.CP.Y - c.R < 0 ∨ c.CP.Y + c.R ≥ d.maxY)

/-- `Triangle.draw`'s shape-level bounds check (on the y-sorted vertices)
passes. -/
def triInBounds (t : Triangle) (d : Display) : Prop :=
  ¬((sortVerts t).x0 < 0 ∨ (sortVerts t).x1 < 0 ∨ (sortVerts t).x2 < 0 ∨
    (sortVerts t).y0 < 0 ∨ (sortVerts t).y1 < 0 ∨ (sortVerts t).y2 < 0 ∨
    (sortVerts t).x0 ≥ d.maxX ∨ (sortVerts t).x1 ≥ d.maxX ∨ (sortVerts t).x2 ≥ d.maxX ∨
    (sortVerts t).y0 ≥ d.maxY ∨ (sortVerts t).y1 ≥ d.maxY ∨ (sortVerts t).y2 ≥ d.maxY)

/-- The claim fails on a non-square display: on a 5×3 display the rectangle
`LL=(0,0)`, `UR=(4,0)` passes the shape-level bounds check, yet the draw
fails with the per-pixel OutOfBounds message after mutating the grid (the
logical pixel `(0,0)` is already red while it was white before). -/
theorem all_or_nothing_counterexample :
    rectInBounds ⟨⟨0, 0⟩, ⟨4, 0⟩, red⟩ (initDisplay 5 3) ∧
    (rectDraw ⟨⟨0, 0⟩, ⟨4, 0⟩, red⟩ (initDisplay 5 3)).2 = some "pixel out of bounds" ∧
    pix (rectDraw ⟨⟨0, 0⟩, ⟨4, 0⟩, red⟩ (initDisplay 5 3)).1 0 0 = red ∧
    pix (initDisplay 5 3) 0 0 = white ∧
    red ≠ white := by
  refine ⟨by unfold rectInBounds; decide, by decide, by decide, by decide, by decide⟩

theorem sortA_sorted (v : TriV) : (sortA v).y0 ≤ (sortA v).y1 := by
  unfold sortA
  split_ifs <;> (try dsimp only) <;> omega

theorem sortB_sorted (v : TriV) (h : v.y0 ≤ v.y1) :
    (sortB v).y0 ≤ (sortB v).y1 ∧ (sortB v).y0 ≤ (sortB v).y2 := by
  unfold sortB
  split_ifs <;> (try dsimp only) <;> omega

theorem sortC_sorted (v : TriV) (h1 : v.y0 ≤ v.y1) (h2 : v.y0 ≤ v.y2) :
    (sortC v).y0 ≤ (sortC v).y1 ∧ (sortC v).y1 ≤ (sortC v).y2 := by
  unfold sortC
  split_ifs <;> (try dsimp only) <;> omega

/-- The three pairwise swaps leave the `y` coordinates sorted. -/
theorem sortVerts_sorted (t : Triangle) :
    (sortVerts t).y0 ≤ (sortVerts t).y1 ∧ (sortVerts t).y1 ≤ (sortVerts t).y2 := by
  unfold sortVerts
  have h1 := sortA_sorted ⟨t.Pt0.X, t.Pt0.Y, t.Pt1.X, t.Pt1.Y, t.Pt2.X, t.Pt2.Y⟩
  have h2 := sortB_sorted _ h1
  exact sortC_sorted _ h2.1 h2.2

end Draw

namespace Draw

theorem x012_length {v : TriV} (hs1 : v.y0 ≤ v.y1) (hs2 : v.y1 ≤ v.y2) :
    (interpolate v.y0 v.x0 v.y1 v.x1 ++ (interpolate v.y1 v.x1 v.y2 v.x2).drop 1).length
      = (v.y2 - v.y0 + 1).toNat := by
  rw [List.length_append, List.length_drop, length_interpolate, length_interpolate]
  omega

theorem mem_x012_bounds {v : TriV} {z : Int}
    (h : z ∈ interpolate v.y0 v.x0 v.y1 v.x1 ++ (interpolate v.y1 v.x1 v.y2 v.x2).drop 1) :
    (min v.x0 v.x1 ≤ z ∧ z ≤ max v.x0 v.x1) ∨ (min v.x1 v.x2 ≤ z ∧ z ≤ max v.x1 v.x2) := by
  rcases List.mem_append.mp h with h | h
  · exact Or.inl (interpolate_mem_bounds h)
  · exact Or.inr (interpolate_mem_bounds (List.mem_of_mem_drop h))

/-- Every scanline pixel lies inside `[0, n) × [y0, y2]` when both boundary
sequences have in-range elements and cover all the rows. -/
theorem triPoints_bounds {y0 y2 : Int} {A B : List Int} {n : Int}
    (hA : ∀ z ∈ A, 0 ≤ z ∧ z < n) (hB : ∀ z ∈ B, 0 ≤ z ∧ z < n)
    (hlenA : (y2 - y0 + 1).toNat ≤ A.length)
    (hlenB : (y2 - y0 + 1).toNat ≤ B.length) :
    ∀ p ∈ triPoints y0 y2 A B, 0 ≤ p.1 ∧ p.1 < n ∧ y0 ≤ p.2 ∧ p.2 ≤ y2 := by
  intro p hp
  simp only [triPoints, List.mem_flatMap, List.mem_map] at hp
  obtain ⟨y, hy, x, hx, heq⟩ := hp
  rw [mem_intRange] at hy
  rw [mem_intRange] at hx
  subst heq
  have hAi : (y - y0).toNat < A.length := by omega
  have hBi : (y - y0).toNat < B.length := by omega
  have hlo : 0 ≤ A.getD (y - y0).toNat 0 ∧ A.getD (y - y0).toNat 0 < n := by
    rw [List.getD_eq_getElem _ _ hAi]
    exact hA _ (List.getElem_mem hAi)
  have hhi : 0 ≤ B.getD (y - y0).toNat 0 ∧ B.getD (y - y0).toNat 0 < n := by
    rw [List.getD_eq_getElem _ _ hBi]
    exact hB _ (List.getElem_mem hBi)
  refine ⟨?_, ?_, ?_, ?_⟩ <;> dsimp only <;> omega

theorem rect_pts_bounds {r : Rectangle} {d : Display} (hb : rectInBounds r d)
    (hsq : d.maxX = d.maxY) :
    ∀ p ∈ rectPoints r, 0 ≤ p.1 ∧ 0 ≤ p.2 ∧ p.2 < d.maxX ∧ p.1 < d.maxY := by
  intro p hp
  rw [mem_rectPoints] at hp
  unfold rectInBounds at hb
  omega

theorem circle_pts_bounds {c : Circle} {d : Display} (hb : circleInBounds c d)
    (hsq : d.maxX = d.maxY) :
    ∀ p ∈ circlePoints c, 0 ≤ p.1 ∧ 0 ≤ p.2 ∧ p.2 < d.maxX ∧ p.1 < d.maxY := by
  intro p hp
  obtain ⟨dx, dy, h1, h2, h3, h4, _, rfl⟩ := mem_circlePoints.mp hp
  unfold circleInBounds at hb
  dsimp only
  omega

theorem rectDraw_square_ok {r : Rectangle} {d : Display} (hsq : d.maxX = d.maxY)
    (hc : (colorMap r.C).isSome = true) (hb : rectInBounds r d) :
    (rectDraw r d).2 = none := by
  unfold rectDraw
  rw [if_neg hb]
  exact drawAll_ok_of_forall hc (rect_pts_bounds hb hsq)

theorem circleDraw_square_ok {c : Circle} {d : Display} (hsq : d.maxX = d.maxY)
    (hc : (colorMap c.C).isSome = true) (hb : circleInBounds c d) :
    (circleDraw c d).2 = none := by
  unfold circleDraw
  rw [if_neg hb]
  exact drawAll_ok_of_forall hc (circle_pts_bounds hb hsq)

theorem triDraw_square_ok {t : Triangle} {d : Display} (hsq : d.maxX = d.maxY)
    (hc : (colorMap t.C).isSome = true) (hb : triInBounds t d) :
    (triDraw t d).2 = none := by
  obtain ⟨hs1, hs2⟩ := sortVerts_sorted t
  unfold triInBounds at hb
  simp only [triDraw]
  rw [if_neg hb]
  have hA : ∀ z ∈ interpolate (sortVerts t).y0 (sortVerts t).x0 (sortVerts t).y2 (sortVerts t).x2,
      0 ≤ z ∧ z < d.maxX := by
    intro z hz
    have := interpolate_mem_bounds hz
    omega
  have hB : ∀ z ∈ interpolate (sortVerts t).y0 (sortVerts t).x0 (sortVerts t).y1 (sortVerts t).x1 ++
      (interpolate (sortVerts t).y1 (sortVerts t).x1 (sortVerts t).y2 (sortVerts t).x2).drop 1,
      0 ≤ z ∧ z < d.maxX := by
    intro z hz
    rcases mem_x012_bounds hz with h | h <;> omega
  have hlenA : ((sortVerts t).y2 - (sortVerts t).y0 + 1).toNat ≤
      (interpolate (sortVerts t).y0 (sortVerts t).x0 (sortVerts t).y2 (sortVerts t).x2).length := by
    rw [length_interpolate]
  have hlenB : ((sortVerts t).y2 - (sortVerts t).y0 + 1).toNat ≤
      (interpolate (sortVerts t).y0 (sortVerts t).x0 (sortVerts t).y1 (sortVerts t).x1 ++
        (interpolate (sortVerts t).y1 (sortVerts t).x1 (sortVerts t).y2 (sortVerts t).x2).drop 1).length := by
    rw [x012_length hs1 hs2]
  split_ifs
  · apply drawAll_ok_of_forall hc
    intro p hp
    have := triPoints_bounds hA hB hlenA hlenB p hp
    refine ⟨this.1, by omega, by omega, by omega⟩
  · apply drawAll_ok_of_forall hc
    intro p hp
    have := triPoints_bounds hB hA hlenB hlenA p hp
    refine ⟨this.1, by omega, by omega, by omega⟩

end Draw

namespace Draw

theorem rectDraw_square_unchanged {r : Rectangle} {d : Display}
    (hsq : d.maxX = d.maxY) (h : (rectDraw r d).2 ≠ none) :
    (rectDraw r d).1 = d := by
  unfold rectDraw at h ⊢
  split_ifs at h ⊢ with hb
  · rfl
  · rcases hc : colorMap r.C with _ | rgb
    · exact drawAll_colorNone _ hc
    · exact absurd (drawAll_ok_of_forall (by rw [hc]; rfl)
        (rect_pts_bounds hb hsq)) h

theorem circleDraw_square_unchanged {c : Circle} {d : Display}
    (hsq : d.maxX = d.maxY) (h : (circleDraw c d).2 ≠ none) :
    (circleDraw c d).1 = d := by
  unfold circleDraw at h ⊢
  split_ifs at h ⊢ with hb
  · rfl
  · rcases hc : colorMap c.C with _ | rgb
    · exact drawAll_colorNone _ hc
    · exact absurd (drawAll_ok_of_forall (by rw [hc]; rfl)
        (circle_pts_bounds hb hsq)) h

theorem triDraw_square_unchanged {t : Triangle} {d : Display}
    (hsq : d.maxX = d.maxY) (h : (triDraw t d).2 ≠ none) :
    (triDraw t d).1 = d := by
  rcases hc : colorMap t.C with _ | rgb
  · simp only [triDraw]
    split_ifs
    · rfl
    · exact drawAll_colorNone _ hc
    · exact drawAll_colorNone _ hc
  · by_cases hb : triInBounds t d
    · exact absurd (triDraw_square_ok hsq (by rw [hc]; rfl) hb) h
    · unfold triInBounds at hb
      simp only [triDraw]
      rw [if_pos (by tauto)]

/-- C1 (amended to square displays): on a display with `maxX = maxY`, a
shape whose color is in the table and whose shape-level bounds check passes
draws with every `drawPixel` call succeeding (`draw` returns success, so
the per-pixel OutOfBounds branch is unreachable); and any failing draw on a
square display leaves the grid exactly as it was (the bounds check failed,
or the color was unknown and the very first pixel call failed before
writing).  On non-square displays the per-pixel branch is reachable and a
failing draw can leave a partial fill (see the counterexample). -/
theorem all_or_nothing_amended (d : Display) (hsq : d.maxX = d.maxY) :
    (∀ r : Rectangle, (colorMap r.C).isSome = true → rectInBounds r d →
      (rectDraw r d).2 = none) ∧
    (∀ c : Circle, (colorMap c.C).isSome = true → circleInBounds c d →
      (circleDraw c d).2 = none) ∧
    (∀ t : Triangle, (colorMap t.C).isSome = true → triInBounds t d →
      (triDraw t d).2 = none) ∧
    (∀ r : Rectangle, (rectDraw r d).2 ≠ none → (rectDraw r d).1 = d) ∧
    (∀ c : Circle, (circleDraw c d).2 ≠ none → (circleDraw c d).1 = d) ∧
    (∀ t : Triangle, (triDraw t d).2 ≠ none → (triDraw t d).1 = d) :=
  ⟨fun _ hc hb => rectDraw_square_ok hsq hc hb,
   fun _ hc hb => circleDraw_square_ok hsq hc hb,
   fun _ hc hb => triDraw_square_ok hsq hc hb,
   fun _ h => rectDraw_square_unchanged hsq h,
   fun _ h => circleDraw_square_unchanged hsq h,
   fun _ h => triDraw_square_unchanged hsq h⟩

end Draw

section RatComputable2

attribute [local semireducible] Rat.add Rat.mul Rat.sub Rat.inv

namespace Draw

/-- Witness for C1's amended theorem on a concrete 4×4 display. -/
theorem all_or_nothing_amended_witness :
    (rectDraw ⟨⟨0, 0⟩, ⟨3, 3⟩, red⟩ (initDisplay 4 4)).2 = none ∧
    (triDraw ⟨⟨0, 0⟩, ⟨3, 0⟩, ⟨0, 3⟩, red⟩ (initDisplay 4 4)).2 = none ∧
    (rectDraw ⟨⟨-1, 0⟩, ⟨2, 2⟩, red⟩ (initDisplay 4 4)).1 = initDisplay 4 4 := by
  refine ⟨?_, ?_, ?_⟩
  · exact (all_or_nothing_amended (initDisplay 4 4) rfl).1 ⟨⟨0, 0⟩, ⟨3, 3⟩, red⟩
      (by decide) (by unfold rectInBounds; decide)
  · exact (all_or_nothing_amended (initDisplay 4 4) rfl).2.2.1 ⟨⟨0, 0⟩, ⟨3, 0⟩, ⟨0, 3⟩, red⟩
      (by decide) (by unfold triInBounds; decide)
  · exact (all_or_nothing_amended (initDisplay 4 4) rfl).2.2.2.1 ⟨⟨-1, 0⟩, ⟨2, 2⟩, red⟩
      (by decide)

end Draw

end RatComputable2

namespace Draw

/-! ### Degenerate triangles P8 (C9) -/

/-- Twice the signed area of the triangle on the six working variables. -/
def crossV (v : TriV) : Int :=
  (v.x1 - v.x0) * (v.y2 - v.y0) - (v.x2 - v.x0) * (v.y1 - v.y0)

/-- The three vertices are collinear (zero area). -/
def collinearT (t : Triangle) : Prop :=
  crossV ⟨t.Pt0.X, t.Pt0.Y, t.Pt1.X, t.Pt1.Y, t.Pt2.X, t.Pt2.Y⟩ = 0

/-- The exact abscissa of the long edge (`y`-sorted first to last vertex)
at row `y` — the chord a degenerate triangle collapses onto. -/
def lineX (t : Triangle) (y : Int) : ℚ :=
  ((sortVerts t).x0 : ℚ) + ((y : ℚ) - ((sortVerts t).y0 : ℚ)) *
    ((((sortVerts t).x2 : ℚ) - ((sortVerts t).x0 : ℚ)) /
      (((sortVerts t).y2 : ℚ) - ((sortVerts t).y0 : ℚ)))

/-- Integer point `p` lies on the closed segment from `a` to `b`. -/
def onSegment (p a b : Point) : Prop :=
  (b.X - a.X) * (p.Y - a.Y) = (b.Y - a.Y) * (p.X - a.X) ∧
    min a.X b.X ≤ p.X ∧ p.X ≤ max a.X b.X ∧
    min a.Y b.Y ≤ p.Y ∧ p.Y ≤ max a.Y b.Y

theorem crossV_sortA (v : TriV) :
    crossV (sortA v) = crossV v ∨ crossV (sortA v) = -crossV v := by
  unfold sortA
  split_ifs
  · right
    unfold crossV
    dsimp only
    ring
  · left
    rfl

theorem crossV_sortB (v : TriV) :
    crossV (sortB v) = crossV v ∨ crossV (sortB v) = -crossV v := by
  unfold sortB
  split_ifs
  · right
    unfold crossV
    dsimp only
    ring
  · left
    rfl

theorem crossV_sortC (v : TriV) :
    crossV (sortC v) = crossV v ∨ crossV (sortC v) = -crossV v := by
  unfold sortC
  split_ifs
  · right
    unfold crossV
    dsimp only
    ring
  · left
    rfl

/-- Sorting preserves degeneracy. -/
theorem crossV_sortVerts_eq_zero {t : Triangle} (h : collinearT t) :
    crossV (sortVerts t) = 0 := by
  unfold collinearT at h
  unfold sortVerts
  rcases crossV_sortA ⟨t.Pt0.X, t.Pt0.Y, t.Pt1.X, t.Pt1.Y, t.Pt2.X, t.Pt2.Y⟩ with h1 | h1 <;>
    rcases crossV_sortB (sortA ⟨t.Pt0.X, t.Pt0.Y, t.Pt1.X, t.Pt1.Y, t.Pt2.X, t.Pt2.Y⟩) with h2 | h2 <;>
    rcases crossV_sortC (sortB (sortA ⟨t.Pt0.X, t.Pt0.Y, t.Pt1.X, t.Pt1.Y, t.Pt2.X, t.Pt2.Y⟩)) with h3 | h3 <;>
    omega

theorem getD_drop_one (l : List Int) (j : Nat) :
    (l.drop 1).getD j 0 = l.getD (j + 1) 0 := by
  cases l with
  | nil => rfl
  | cons a rest => rfl

/-- On a degenerate (collinear) sorted triangle the concatenated short
edges agree with the long edge row by row: both are the truncation of the
exact chord abscissa. -/
theorem collinear_x012_getD {v : TriV} (hs1 : v.y0 ≤ v.y1) (hs2 : v.y1 ≤ v.y2)
    (hcol : crossV v = 0) {i : Nat} (hi : i < (v.y2 - v.y0 + 1).toNat) :
    (interpolate v.y0 v.x0 v.y1 v.x1 ++
        (interpolate v.y1 v.x1 v.y2 v.x2).drop 1).getD i 0 =
      truncQ ((v.x0 : ℚ) + (i : ℚ) *
        (((v.x2 : ℚ) - (v.x0 : ℚ)) / ((v.y2 : ℚ) - (v.y0 : ℚ)))) := by
  have hint : (v.x1 - v.x0) * (v.y2 - v.y0) = (v.x2 - v.x0) * (v.y1 - v.y0) :=
    sub_eq_zero.mp hcol
  have hq : ((v.x1 : ℚ) - (v.x0 : ℚ)) * ((v.y2 : ℚ) - (v.y0 : ℚ)) =
      ((v.x2 : ℚ) - (v.x0 : ℚ)) * ((v.y1 : ℚ) - (v.y0 : ℚ)) := by
    exact_mod_cast hint
  by_cases hi1 : i < (v.y1 - v.y0 + 1).toNat
  · rw [List.getD_append _ _ _ _ (by rw [length_interpolate]; exact hi1),
      getD_interpolate hi1]
    by_cases hy01 : v.y0 = v.y1
    · have hi0 : i = 0 := by omega
      subst hi0
      norm_num
    · have hy : v.y0 < v.y1 := lt_of_le_of_ne hs1 hy01
      have hd1 : ((v.y1 : ℚ) - (v.y0 : ℚ)) ≠ 0 := by
        have : (0 : Int) < v.y1 - v.y0 := by omega
        intro hz
        have : ((v.y1 - v.y0 : Int) : ℚ) = 0 := by push_cast; linarith
        rw [Int.cast_eq_zero] at this
        omega
      have hd2 : ((v.y2 : ℚ) - (v.y0 : ℚ)) ≠ 0 := by
        have : (0 : Int) < v.y2 - v.y0 := by omega
        intro hz
        have : ((v.y2 - v.y0 : Int) : ℚ) = 0 := by push_cast; linarith
        rw [Int.cast_eq_zero] at this
        omega
      have hs01 : ((v.x1 : ℚ) - (v.x0 : ℚ)) / ((v.y1 : ℚ) - (v.y0 : ℚ)) =
          ((v.x2 : ℚ) - (v.x0 : ℚ)) / ((v.y2 : ℚ) - (v.y0 : ℚ)) := by
        rw [div_eq_div_iff hd1 hd2]
        linear_combination hq
      rw [hs01]
  · have hy12 : v.y1 < v.y2 := by omega
    have hd2 : ((v.y2 : ℚ) - (v.y0 : ℚ)) ≠ 0 := by
      have : (0 : Int) < v.y2 - v.y0 := by omega
      intro hz
      have : ((v.y2 - v.y0 : Int) : ℚ) = 0 := by push_cast; linarith
      rw [Int.cast_eq_zero] at this
      omega
    have hd12 : ((v.y2 : ℚ) - (v.y1 : ℚ)) ≠ 0 := by
      have : (0 : Int) < v.y2 - v.y1 := by omega
      intro hz
      have : ((v.y2 - v.y1 : Int) : ℚ) = 0 := by push_cast; linarith
      rw [Int.cast_eq_zero] at this
      omega
    have hlen01 : (interpolate v.y0 v.x0 v.y1 v.x1).length = (v.y1 - v.y0 + 1).toNat :=
      length_interpolate _ _ _ _
    rw [List.getD_append_right _ _ _ _ (by omega), hlen01, getD_drop_one,
      getD_interpolate (by omega : i - (v.y1 - v.y0 + 1).toNat + 1 < (v.y2 - v.y1 + 1).toNat)]
    have hs12 : ((v.x2 : ℚ) - (v.x1 : ℚ)) / ((v.y2 : ℚ) - (v.y1 : ℚ)) =
        ((v.x2 : ℚ) - (v.x0 : ℚ)) / ((v.y2 : ℚ) - (v.y0 : ℚ)) := by
      rw [div_eq_div_iff hd12 hd2]
      linear_combination -hq
    have hx1 : (v.x1 : ℚ) = (v.x0 : ℚ) + ((v.y1 : ℚ) - (v.y0 : ℚ)) *
        (((v.x2 : ℚ) - (v.x0 : ℚ)) / ((v.y2 : ℚ) - (v.y0 : ℚ))) := by
      field_simp
      linear_combination hq
    congr 1
    rw [hs12, hx1]
    have hcast : ((i - (v.y1 - v.y0 + 1).toNat + 1 : Nat) : ℚ) =
        (i : ℚ) - ((v.y1 : ℚ) - (v.y0 : ℚ)) := by
      have h1 : ((i - (v.y1 - v.y0 + 1).toNat + 1 : Nat) : Int) =
          (i : Int) - (v.y1 - v.y0) := by omega
      have h2 := congrArg (Int.cast : Int → ℚ) h1
      push_cast at h2
      push_cast
      linarith
    rw [hcast]
    ring

end Draw

section RatComputable3

attribute [local semireducible] Rat.add Rat.mul Rat.sub Rat.inv

namespace Draw

/-- The claim's "paints at most the grid points lying on the segment" fails:
the collinear triangle `(0,0),(1,2),(2,4)` (slope 1/2) draws successfully
on a fresh 10×10 display and paints the pixel `(0,1)`, which does not lie
on the segment between the extreme vertices `(0,0)` and `(2,4)` (the
truncated interpolant is half a pixel off the chord). -/
theorem degenerate_triangle_counterexample :
    collinearT ⟨⟨0, 0⟩, ⟨1, 2⟩, ⟨2, 4⟩, red⟩ ∧
    triInBounds ⟨⟨0, 0⟩, ⟨1, 2⟩, ⟨2, 4⟩, red⟩ (initDisplay 10 10) ∧
    (triDraw ⟨⟨0, 0⟩, ⟨1, 2⟩, ⟨2, 4⟩, red⟩ (initDisplay 10 10)).2 = none ∧
    pix (triDraw ⟨⟨0, 0⟩, ⟨1, 2⟩, ⟨2, 4⟩, red⟩ (initDisplay 10 10)).1 0 1 = red ∧
    pix (initDisplay 10 10) 0 1 = white ∧
    sortVerts ⟨⟨0, 0⟩, ⟨1, 2⟩, ⟨2, 4⟩, red⟩ = ⟨0, 0, 1, 2, 2, 4⟩ ∧
    ¬ onSegment ⟨0, 1⟩ ⟨0, 0⟩ ⟨2, 4⟩ := by
  refine ⟨by unfold collinearT crossV; decide, by unfold triInBounds; decide,
    by decide, by decide, by decide, by decide, by unfold onSegment; decide⟩

end Draw

end RatComputable3

namespace Draw

/-- C9 (amended): for every triangle all sequence indexing during the fill
stays in range (the boundary lists both have length `y2-y0+1`, the midpoint
index and every row index are below it) — so no crash; and a collinear
triangle paints at most one pixel per row `y ∈ [y0, y2]`, at the truncation
of the exact chord abscissa `lineX`, which is within horizontal distance 1
of the segment between the extreme vertices — a minimal bounded region,
though (see the counterexample) not always exactly on the segment. -/
theorem degenerate_triangle_amended :
    (∀ t : Triangle,
      (interpolate (sortVerts t).y0 (sortVerts t).x0 (sortVerts t).y1 (sortVerts t).x1 ++
        (interpolate (sortVerts t).y1 (sortVerts t).x1 (sortVerts t).y2 (sortVerts t).x2).drop 1).length =
        ((sortVerts t).y2 - (sortVerts t).y0 + 1).toNat ∧
      (interpolate (sortVerts t).y0 (sortVerts t).x0 (sortVerts t).y2 (sortVerts t).x2).length =
        ((sortVerts t).y2 - (sortVerts t).y0 + 1).toNat ∧
      (interpolate (sortVerts t).y0 (sortVerts t).x0 (sortVerts t).y1 (sortVerts t).x1 ++
        (interpolate (sortVerts t).y1 (sortVerts t).x1 (sortVerts t).y2 (sortVerts t).x2).drop 1).length / 2 <
        ((sortVerts t).y2 - (sortVerts t).y0 + 1).toNat ∧
      (∀ y : Int, (sortVerts t).y0 ≤ y → y ≤ (sortVerts t).y2 →
        (y - (sortVerts t).y0).toNat < ((sortVerts t).y2 - (sortVerts t).y0 + 1).toNat)) ∧
    (∀ (t : Triangle) (d d' : Display) (e : Option String), collinearT t →
      triDraw t d = (d', e) →
      ∀ a b : Nat, cell d' a b ≠ cell d a b →
      ∃ y : Int, (sortVerts t).y0 ≤ y ∧ y ≤ (sortVerts t).y2 ∧ b = y.toNat ∧
        a = (truncQ (lineX t y)).toNat ∧
        |(truncQ (lineX t y) : ℚ) - lineX t y| < 1) := by
  constructor
  · intro t
    obtain ⟨hs1, hs2⟩ := sortVerts_sorted t
    have hL := x012_length hs1 hs2
    refine ⟨hL, length_interpolate _ _ _ _, ?_, ?_⟩
    · rw [hL]
      omega
    · intro y h1 h2
      omega
  · intro t d d' e hcol h a b hne
    obtain ⟨hs1, hs2⟩ := sortVerts_sorted t
    have hcv : crossV (sortVerts t) = 0 := crossV_sortVerts_eq_zero hcol
    have hL := x012_length hs1 hs2
    simp only [triDraw] at h
    split_ifs at h with hbound hcmp
    · injection h with h1 h2
      subst h1
      exact absurd rfl hne
    · exfalso
      have hm : (interpolate (sortVerts t).y0 (sortVerts t).x0 (sortVerts t).y1 (sortVerts t).x1 ++
          (interpolate (sortVerts t).y1 (sortVerts t).x1 (sortVerts t).y2 (sortVerts t).x2).drop 1).length / 2 <
          ((sortVerts t).y2 - (sortVerts t).y0 + 1).toNat := by
        rw [hL]
        omega
      rw [collinear_x012_getD hs1 hs2 hcv hm,
        getD_interpolate hm] at hcmp
      exact lt_irrefl _ hcmp
    · have hd' : (drawAll t.C d
          (triPoints (sortVerts t).y0 (sortVerts t).y2
            (interpolate (sortVerts t).y0 (sortVerts t).x0 (sortVerts t).y1 (sortVerts t).x1 ++
              (interpolate (sortVerts t).y1 (sortVerts t).x1 (sortVerts t).y2 (sortVerts t).x2).drop 1)
            (interpolate (sortVerts t).y0 (sortVerts t).x0 (sortVerts t).y2 (sortVerts t).x2))).1 = d' :=
        congrArg Prod.fst h
      have hfoot : ¬ (∀ p ∈ triPoints (sortVerts t).y0 (sortVerts t).y2
          (interpolate (sortVerts t).y0 (sortVerts t).x0 (sortVerts t).y1 (sortVerts t).x1 ++
            (interpolate (sortVerts t).y1 (sortVerts t).x1 (sortVerts t).y2 (sortVerts t).x2).drop 1)
          (interpolate (sortVerts t).y0 (sortVerts t).x0 (sortVerts t).y2 (sortVerts t).x2),
          ¬(p.1.toNat = a ∧ p.2.toNat = b)) := by
        intro hall
        exact hne (by rw [← hd']; exact cell_drawAll_ne hall)
      push_neg at hfoot
      obtain ⟨p, hp, hmatch⟩ := hfoot
      simp only [triPoints, List.mem_flatMap, List.mem_map] at hp
      obtain ⟨y, hy, x, hx, heq⟩ := hp
      rw [mem_intRange] at hy
      subst heq
      dsimp only at hmatch
      have hiB : (y - (sortVerts t).y0).toNat < ((sortVerts t).y2 - (sortVerts t).y0 + 1).toNat := by
        omega
      rw [mem_intRange, collinear_x012_getD hs1 hs2 hcv hiB, getD_interpolate hiB] at hx
      have hxT : x = truncQ (((sortVerts t).x0 : ℚ) +
          (((y - (sortVerts t).y0).toNat : Nat) : ℚ) *
          ((((sortVerts t).x2 : ℚ) - ((sortVerts t).x0 : ℚ)) /
            (((sortVerts t).y2 : ℚ) - ((sortVerts t).y0 : ℚ)))) := by
        omega
      have hcast : (((y - (sortVerts t).y0).toNat : Nat) : ℚ) =
          (y : ℚ) - ((sortVerts t).y0 : ℚ) := by
        have h1 : (((y - (sortVerts t).y0).toNat : Nat) : Int) = y - (sortVerts t).y0 := by
          omega
        have h2 := congrArg (Int.cast : Int → ℚ) h1
        push_cast at h2
        push_cast
        linarith
      have hline : lineX t y = ((sortVerts t).x0 : ℚ) +
          (((y - (sortVerts t).y0).toNat : Nat) : ℚ) *
          ((((sortVerts t).x2 : ℚ) - ((sortVerts t).x0 : ℚ)) /
            (((sortVerts t).y2 : ℚ) - ((sortVerts t).y0 : ℚ))) := by
        unfold lineX
        rw [hcast]
      refine ⟨y, hy.1, hy.2, hmatch.2.symm, ?_, abs_truncQ_sub_lt _⟩
      rw [← hmatch.1, hxT, hline]

end Draw

section RatComputable4

attribute [local semireducible] Rat.add Rat.mul Rat.sub Rat.inv

namespace Draw

/-- Witness for C9's amended theorem on the concrete collinear triangle. -/
theorem degenerate_triangle_amended_witness :
    ∃ y : Int, (sortVerts ⟨⟨0, 0⟩, ⟨1, 2⟩, ⟨2, 4⟩, red⟩).y0 ≤ y ∧
      y ≤ (sortVerts ⟨⟨0, 0⟩, ⟨1, 2⟩, ⟨2, 4⟩, red⟩).y2 ∧ (1 : Nat) = y.toNat ∧
      (0 : Nat) = (truncQ (lineX ⟨⟨0, 0⟩, ⟨1, 2⟩, ⟨2, 4⟩, red⟩ y)).toNat ∧
      |(truncQ (lineX ⟨⟨0, 0⟩, ⟨1, 2⟩, ⟨2, 4⟩, red⟩ y) : ℚ) -
        lineX ⟨⟨0, 0⟩, ⟨1, 2⟩, ⟨2, 4⟩, red⟩ y| < 1 :=
  degenerate_triangle_amended.2 ⟨⟨0, 0⟩, ⟨1, 2⟩, ⟨2, 4⟩, red⟩ (initDisplay 10 10)
    (triDraw ⟨⟨0, 0⟩, ⟨1, 2⟩, ⟨2, 4⟩, red⟩ (initDisplay 10 10)).1 none
    (by unfold collinearT crossV; decide) (by decide) 0 1 (by decide)

end Draw

end RatComputable4
